import Mathlib

/-!
# gourlex: link extraction, target validation and proxy validation

A shallow embedding of `gourlex.go`.  Go strings are modelled as Lean strings
(sequences of Unicode characters, i.e. valid UTF-8 text).  The functions of
the Go standard library the program calls are modelled directly when the
program's behaviour depends on their details (`strings`, `strconv.Atoi`, the
IPv4 branch of `net.ParseIP`, the scheme extraction of `net/url`); the other
library services (DNS, HTTP, the steps of `net/url` after the scheme, the IPv6
parser, ...) are fields of an environment record `Env`, and the general
theorems hold for whatever those services answer.  `Sample.env` is a concrete
environment on which the program is evaluated at concrete inputs.
-/

namespace Gourlex

/-! ## Package `strings` -/

namespace strings

/-- Go `strings.HasPrefix`. -/
def HasPrefix (s pre : String) : Bool :=
  pre.data.isPrefixOf s.data

/-- The pieces of a character list between the occurrences of `sep`. -/
def splitChars (sep : Char) : List Char → List (List Char)
  | [] => [[]]
  | c :: cs =>
    if c = sep then [] :: splitChars sep cs
    else
      match splitChars sep cs with
      | [] => [[c]]
      | p :: ps => (c :: p) :: ps

/-- Go `strings.Split(s, sep)` for a one-character separator, the only way the
program calls it (`":"`). -/
def Split (s : String) (sep : Char) : List String :=
  (splitChars sep s.data).map String.mk

/-- Go `unicode.IsSpace`. -/
def IsSpace (c : Char) : Bool :=
  let n := c.toNat
  n == 0x09 || n == 0x0A || n == 0x0B || n == 0x0C || n == 0x0D || n == 0x20 ||
  n == 0x85 || n == 0xA0 || n == 0x1680 || (0x2000 ≤ n && n ≤ 0x200A) ||
  n == 0x2028 || n == 0x2029 || n == 0x202F || n == 0x205F || n == 0x3000

/-- Go `strings.TrimSpace`: drop the white space at both ends. -/
def TrimSpace (s : String) : String :=
  String.mk ((s.data.dropWhile IsSpace).reverse.dropWhile IsSpace).reverse

/-- Go `strings.ToLower` on ASCII text (the library's fast path; the program
only reaches it, through `net/url`, with the ASCII output of `getScheme`). -/
def ToLower (s : String) : String :=
  String.mk (s.data.map fun c =>
    if 'A'.toNat ≤ c.toNat ∧ c.toNat ≤ 'Z'.toNat then Char.ofNat (c.toNat + 32) else c)

/-- Go `strings.Cut(s, sep)` for a one-character separator: the text before
and after the first `sep`, and whether `sep` occurs. -/
def cutChars (sep : Char) : List Char → List Char × List Char × Bool
  | [] => ([], [], false)
  | c :: cs =>
    if c = sep then ([], cs, true)
    else
      let r := cutChars sep cs
      (c :: r.1, r.2.1, r.2.2)

/-- Go `strings.Cut` for a one-character separator. -/
def Cut (s : String) (sep : Char) : String × String × Bool :=
  let r := cutChars sep s.data
  (String.mk r.1, String.mk r.2.1, r.2.2)

end strings

/-! ## Package `strconv` -/

namespace strconv

/-- The value of a decimal digit character, if it is one. -/
def digitVal (c : Char) : Option Nat :=
  if '0'.toNat ≤ c.toNat ∧ c.toNat ≤ '9'.toNat then some (c.toNat - '0'.toNat) else none

/-- Left-to-right decimal accumulation `n = n*10 + digit`; `none` on a
character that is not a decimal digit. -/
def parseDigits : List Char → Nat → Option Nat
  | [], n => some n
  | c :: cs, n =>
    match digitVal c with
    | none => none
    | some d => parseDigits cs (n * 10 + d)

/-- The two failures of Go `strconv.Atoi` (`ErrSyntax`, `ErrRange`). -/
inductive NumError where
  | syntaxError
  | rangeError
  deriving DecidableEq, Repr

/-- Go `strconv.Atoi` on a 64-bit platform: an optional sign, then one or more
decimal digits, the value within the range of `int`. -/
def Atoi (s : String) : Except NumError Int :=
  match s.data with
  | [] => .error .syntaxError
  | c :: cs =>
    let digits := if c = '-' ∨ c = '+' then cs else c :: cs
    match digits with
    | [] => .error .syntaxError
    | _ =>
      match parseDigits digits 0 with
      | none => .error .syntaxError
      | some n =>
        if c = '-' then (if n ≤ 2 ^ 63 then .ok (-(n : Int)) else .error .rangeError)
        else (if n < 2 ^ 63 then .ok (n : Int) else .error .rangeError)

end strconv

/-! ## Package `net`: IP literals -/

namespace net

/-- The loop of Go `netip.parseIPv4` over the remaining bytes.  `val` is the
octet being read, `pos` the number of octets stored, `digLen` the number of
digits of the current octet, `first` tells that the byte is the first of the
string and `prevDot` that the previous byte was a dot. -/
def parseIPv4Loop : List Char → (val pos digLen : Nat) → (first prevDot : Bool) → Bool
  | [], _, pos, _, _, _ => decide (3 ≤ pos)
  | c :: cs, val, pos, digLen, first, prevDot =>
    match strconv.digitVal c with
    | some d =>
      if digLen = 1 ∧ val = 0 then false
      else if val * 10 + d > 255 then false
      else parseIPv4Loop cs (val * 10 + d) pos (digLen + 1) false false
    | none =>
      if c = '.' then
        if first ∨ cs = [] ∨ prevDot then false
        else if pos = 3 then false
        else parseIPv4Loop cs 0 (pos + 1) 0 false true
      else false

/-- Go `netip.parseIPv4`: does the text parse as a dotted-decimal address. -/
def parseIPv4 (s : String) : Bool :=
  parseIPv4Loop s.data 0 0 0 true false

/-- The dispatch of Go `netip.ParseAddr` on the first of `.`, `:` and `%`. -/
def parseAddrChars (parseIPv6 : String → Bool) (s : String) : List Char → Bool
  | [] => false
  | c :: cs =>
    if c = '.' then parseIPv4 s
    else if c = ':' then parseIPv6 s
    else if c = '%' then false
    else parseAddrChars parseIPv6 s cs

/-- Go `net.ParseIP(s) != nil`.  The IPv6 parser of the library is the
parameter `parseIPv6` (it answers whether the text is an IPv6 literal without
a zone). -/
def ParseIP (parseIPv6 : String → Bool) (s : String) : Bool :=
  parseAddrChars parseIPv6 s s.data

end net

/-! ## Package `net/url` -/

/-- Go `url.URL` (the user information flattened into three fields). -/
structure URL where
  Scheme : String := ""
  Opaque : String := ""
  HasUser : Bool := false
  Username : String := ""
  Password : Option String := none
  Host : String := ""
  Path : String := ""
  RawPath : String := ""
  OmitHost : Bool := false
  ForceQuery : Bool := false
  RawQuery : String := ""
  Fragment : String := ""
  RawFragment : String := ""
  deriving DecidableEq, Repr

/-! ## Package `golang.org/x/net/html` -/

namespace html

/-- Go `html.TokenType`. -/
inductive TokenType where
  | ErrorToken
  | TextToken
  | StartTagToken
  | EndTagToken
  | SelfClosingTagToken
  | CommentToken
  | DoctypeToken
  deriving DecidableEq, Repr

/-- Go `html.Attribute`. -/
structure Attribute where
  Namespace : String := ""
  Key : String
  Val : String
  deriving DecidableEq, Repr

/-- Go `html.Token`; `Typ` is the field `Type`. -/
structure Token where
  Typ : TokenType
  Data : String := ""
  Attr : List Attribute := []
  deriving DecidableEq, Repr

/-- Why the tokenizer stopped, as `Tokenizer.Err` reports it: `io.EOF`, or the
error of the underlying reader. -/
inductive ReadEnd where
  | eof
  | ioError (msg : String)
  deriving DecidableEq, Repr

end html

/-! ## Package `net/http` -/

namespace http

/-- A response body as the HTML tokenizer sees it: the tokens `Next` hands out
before it answers `ErrorToken`, and the reason it stopped. -/
structure Body where
  tokens : List html.Token
  stop : html.ReadEnd := .eof
  deriving DecidableEq, Repr

/-- Go `http.Response`, reduced to its body. -/
structure Response where
  Body : Body
  deriving DecidableEq, Repr

/-- Go `http.Transport`: the proxy and the TLS setting the program fills in. -/
structure Transport where
  Proxy : URL
  InsecureSkipVerify : Bool
  deriving DecidableEq, Repr

/-- Go `http.Client`; `Transport = none` is the default transport. -/
structure Client where
  Transport : Option Transport := none
  deriving DecidableEq, Repr

/-- Go `http.Header`: the values stored under each canonical key. -/
abbrev Header := List (String × List String)

/-- Go `http.Request`. -/
structure Request where
  Method : String
  URL : URL
  Header : Header := []
  deriving DecidableEq, Repr

end http

/-! ## Environment -/

/-- The services of the Go standard library and of the network that the
program uses without depending on how they compute their answer. -/
structure Env where
  /-- Program name, `os.Args[0]`. -/
  progName : String
  /-- Go `strconv.Quote`, which renders the text inside library errors. -/
  quote : String → String
  /-- Whether a text is an IPv6 literal without zone (`net.ParseIP`). -/
  parseIPv6 : String → Bool
  /-- The steps of `net/url.parse` after the scheme has been split off and
  lowercased: they receive the scheme and the rest and fill in the other
  fields of the URL, or fail with the text of the error. -/
  parseAfterScheme : String → String → Except String URL
  /-- Go `URL.setFragment`: the decoded and the raw fragment. -/
  setFragment : String → Except String (String × String)
  /-- Go `URL.String`. -/
  URLString : URL → String
  /-- Go `URL.RequestURI`. -/
  RequestURI : URL → String
  /-- Go `net.SplitHostPort`. -/
  SplitHostPort : String → Except String (String × String)
  /-- Go `net.LookupHost`: the DNS answer for a host. -/
  LookupHost : String → Except String (List String)
  /-- Go `textproto.CanonicalMIMEHeaderKey`. -/
  canonicalHeaderKey : String → String
  /-- Go `Client.Do`: the outcome of sending the request. -/
  Do : http.Client → http.Request → Except String http.Response

namespace url

/-- Go `stringContainsCTLByte`. -/
def stringContainsCTLByte (s : String) : Bool :=
  s.data.any fun c => c.toNat < 0x20 || c.toNat == 0x7f

/-- The loop of Go `getScheme`: `seen` holds the bytes already accepted, in
order, and `raw` the whole input. -/
def getSchemeLoop (raw : String) : List Char → List Char → Except String (String × String)
  | _, [] => .ok ("", raw)
  | seen, c :: cs =>
    if ('a'.toNat ≤ c.toNat ∧ c.toNat ≤ 'z'.toNat) ∨ ('A'.toNat ≤ c.toNat ∧ c.toNat ≤ 'Z'.toNat) then
      getSchemeLoop raw (seen ++ [c]) cs
    else if ('0'.toNat ≤ c.toNat ∧ c.toNat ≤ '9'.toNat) ∨ c = '+' ∨ c = '-' ∨ c = '.' then
      if seen = [] then .ok ("", raw) else getSchemeLoop raw (seen ++ [c]) cs
    else if c = ':' then
      if seen = [] then .error "missing protocol scheme" else .ok (String.mk seen, String.mk cs)
    else .ok ("", raw)

/-- Go `getScheme`: the scheme and what follows its colon, or no scheme and
the whole input. -/
def getScheme (rawURL : String) : Except String (String × String) :=
  getSchemeLoop rawURL [] rawURL.data

/-- Go `url.parse` with `viaRequest = false`. -/
def parse (E : Env) (rawURL : String) : Except String URL :=
  if stringContainsCTLByte rawURL then .error "net/url: invalid control character in URL"
  else if rawURL = "*" then .ok { Path := "*" }
  else
    match getScheme rawURL with
    | .error e => .error e
    | .ok (scheme, rest) =>
      match E.parseAfterScheme (strings.ToLower scheme) rest with
      | .error e => .error e
      | .ok u => .ok { u with Scheme := strings.ToLower scheme }

/-- The text of a Go `url.Error`. -/
def errorText (E : Env) (op target err : String) : String :=
  op ++ " " ++ E.quote target ++ ": " ++ err

/-- Go `url.Parse`: the fragment is cut off, the rest parsed, the fragment
set. -/
def Parse (E : Env) (rawURL : String) : Except String URL :=
  let c := strings.Cut rawURL '#'
  match parse E c.1 with
  | .error e => .error (errorText E "parse" c.1 e)
  | .ok u =>
    if c.2.1 = "" then .ok u
    else
      match E.setFragment c.2.1 with
      | .error e => .error (errorText E "parse" rawURL e)
      | .ok f => .ok { u with Fragment := f.1, RawFragment := f.2 }

end url

/-! ## The program `gourlex.go` -/

/-- What the program does to the outside world, in the order it does it. -/
inductive Event where
  | stdout (text : String)
  | lookupHost (host : String)
  | httpDo (client : http.Client) (req : http.Request)
  | closeBody
  deriving DecidableEq, Repr

/-- How a call of a Go function ends: with a value, with a non-nil `error`
(its text), or with a run-time panic. -/
inductive Outcome (α : Type) where
  | ok (value : α)
  | error (msg : String)
  | panicked (msg : String)
  deriving DecidableEq, Repr

/-- The attribute loop of `extractURLsAndPathsFromResponse` (lines 155-161):
the trimmed value of the last `href` and of the last `src` attribute. -/
def scanAttrs : List html.Attribute → String → String → String × String
  | [], hrefValue, srcValue => (hrefValue, srcValue)
  | attr :: rest, hrefValue, srcValue =>
    if attr.Key = "href" then scanAttrs rest (strings.TrimSpace attr.Val) srcValue
    else if attr.Key = "src" then scanAttrs rest hrefValue (strings.TrimSpace attr.Val)
    else scanAttrs rest hrefValue srcValue

/-- The case `html.StartTagToken, html.SelfClosingTagToken` of the loop of
`extractURLsAndPathsFromResponse` (lines 151-181): the two buckets after the
tag. -/
def tagCase (E : Env) (token : html.Token) (urls paths : List String) :
    List String × List String :=
  let hrefValue := (scanAttrs token.Attr "" "").1
  let srcValue := (scanAttrs token.Attr "" "").2
  let afterHref : List String × List String :=
    if hrefValue ≠ "" ∧ hrefValue ≠ "#" then
      if strings.HasPrefix hrefValue "http://" || strings.HasPrefix hrefValue "https://" then
        (urls ++ [hrefValue], paths)
      else
        match url.Parse E hrefValue with
        | .ok u =>
          if u.Scheme = "http" ∨ u.Scheme = "https" then (urls ++ [E.URLString u], paths)
          else (urls, paths ++ [hrefValue])
        | .error _ => (urls, paths ++ [hrefValue])
    else (urls, paths)
  if srcValue ≠ "" ∧ hrefValue ≠ "#" then
    if strings.HasPrefix srcValue "http://" || strings.HasPrefix srcValue "https://" then
      (afterHref.1 ++ [srcValue], afterHref.2)
    else
      match url.Parse E srcValue with
      | .ok u =>
        if u.Scheme = "http" ∨ u.Scheme = "https" then (afterHref.1 ++ [E.URLString u], afterHref.2)
        else (afterHref.1, afterHref.2 ++ [srcValue])
      | .error _ => (afterHref.1, afterHref.2 ++ [srcValue])
  else afterHref

/-- The `for` loop of `extractURLsAndPathsFromResponse` over the tokens the
tokenizer still has to hand out; once they are used up `Next` answers
`ErrorToken`.  The result is `urls`, `paths` and the returned `error`
(`none` is `nil`). -/
def tokenLoop (E : Env) :
    List html.Token → List String → List String → List String × List String × Option String
  | [], urls, paths => (urls, paths, none)
  | token :: rest, urls, paths =>
    match token.Typ with
    | .ErrorToken => (urls, paths, none)
    | .StartTagToken => tokenLoop E rest (tagCase E token urls paths).1 (tagCase E token urls paths).2
    | .SelfClosingTagToken =>
      tokenLoop E rest (tagCase E token urls paths).1 (tagCase E token urls paths).2
    | _ => tokenLoop E rest urls paths

/-- `extractURLsAndPathsFromResponse` of gourlex.go. -/
def extractURLsAndPathsFromResponse (E : Env) (resp : http.Response) :
    List String × List String × Option String :=
  tokenLoop E resp.Body.tokens [] []

/-- `colorize` of gourlex.go. -/
def colorize (text colorCode : String) : String :=
  colorCode ++ text ++ "\x1b[0m"

/-- Go `fmt.Println` of one string. -/
def println (s : String) : Event := .stdout (s ++ "\n")

/-- `printBanner` of gourlex.go. -/
def printBanner : List Event :=
  [ println (colorize "                         _           " "\x1b[1;35m"),
    println (colorize "   __ _  ___  _   _ _ __| | _____  __" "\x1b[1;35m"),
    println (colorize "  / _` |/ _ \\| | | | '__| |/ _ \\ \\/ /" "\x1b[1;35m"),
    println (colorize " | (_| | (_) | |_| | |  | |  __/>  < " "\x1b[1;35m"),
    println (colorize "  \\__, |\\___/ \\__,_|_|  |_|\\___/_/\\_\\" "\x1b[1;35m"),
    println (colorize "  |___/                                  " "\x1b[1;35m"),
    println "",
    .stdout (colorize "Gourlex - WebPage Urls Extractor Tool\n\n" "\x1b[1;35m") ]

/-- `printURLsAndPaths` of gourlex.go. -/
def printURLsAndPaths (urls paths : List String) (urlOnly pathOnly silentMode : Bool) :
    List Event :=
  (if !pathOnly then
    (if !silentMode then [Event.stdout (colorize "Extracted URLs:\n\n" "\x1b[1;32m")] else [])
      ++ urls.map println
   else [])
  ++ [println ""]
  ++ (if !urlOnly then
    (if !silentMode then [Event.stdout (colorize "Extracted Paths:\n\n" "\x1b[1;32m")] else [])
      ++ paths.map println
   else [])

/-- `validateUrl` of gourlex.go: the DNS lookups made and how the call ends.
When the first parse finds no scheme the second parse's error is discarded, so
a failed second parse leaves `u` nil and reading `u.Scheme` panics. -/
def validateUrl (E : Env) (inputURL : String) : List Event × Outcome String :=
  match url.Parse E inputURL with
  | .error err => ([], .error ("Error parsing URL: " ++ err))
  | .ok u0 =>
    let inputURL1 := if u0.Scheme = "" then "https://" ++ inputURL else inputURL
    let reparsed : Option URL :=
      if u0.Scheme = "" then
        (match url.Parse E inputURL1 with
         | .ok u1 => some u1
         | .error _ => none)
      else some u0
    match reparsed with
    | none => ([], .panicked "invalid memory address or nil pointer dereference")
    | some u =>
      if u.Scheme ≠ "http" ∧ u.Scheme ≠ "https" then ([], .error "Invalid URL scheme")
      else
        let hostPort : String × String :=
          match E.SplitHostPort u.Host with
          | .ok hp => hp
          | .error _ => (u.Host, "")
        match E.LookupHost hostPort.1 with
        | .error err => ([.lookupHost hostPort.1], .error err)
        | .ok _ =>
          if hostPort.2 ≠ "" then
            ([.lookupHost hostPort.1],
              .ok (u.Scheme ++ "://" ++ hostPort.1 ++ ":" ++ hostPort.2 ++ E.RequestURI u))
          else
            ([.lookupHost hostPort.1], .ok (u.Scheme ++ "://" ++ hostPort.1 ++ E.RequestURI u))

/-- `isValidProxy` of gourlex.go. -/
def isValidProxy (E : Env) (input : String) : Bool :=
  let parts := strings.Split input ':'
  if parts.length ≠ 2 then false
  else
    let ip := parts.getD 0 ""
    let portStr := parts.getD 1 ""
    if net.ParseIP E.parseIPv6 ip = false then false
    else
      match strconv.Atoi portStr with
      | .error _ => false
      | .ok port => if port < 1 ∨ port > 65535 then false else true

/-- The text of the `*strconv.NumError` that `Atoi` returns. -/
def atoiErrorText (E : Env) (s : String) : strconv.NumError → String
  | .syntaxError => "strconv.Atoi: parsing " ++ E.quote s ++ ": invalid syntax"
  | .rangeError => "strconv.Atoi: parsing " ++ E.quote s ++ ": value out of range"

/-- `createHTTPClientWProxy` of gourlex.go. -/
def createHTTPClientWProxy (E : Env) (proxy : String) : Outcome http.Client :=
  match strings.Split proxy ':' with
  | proxyIP :: proxyPortStr :: _ =>
    match strconv.Atoi proxyPortStr with
    | .error err =>
      .error ("error converting proxy port to integer: " ++ atoiErrorText E proxyPortStr err)
    | .ok proxyPort =>
      if proxyIP ≠ "" ∧ proxyPort ≠ 0 then
        match url.Parse E ("http://" ++ proxyIP ++ ":" ++ toString proxyPort) with
        | .error err => .error ("error parsing proxy URL: " ++ err)
        | .ok proxyURL => .ok { Transport := some { Proxy := proxyURL, InsecureSkipVerify := true } }
      else .ok {}
  | _ => .panicked "index out of range [1] with length 1"

namespace http

/-- Go `Header.Set`: the values under the canonical key are replaced. -/
def headerSet (E : Env) (h : Header) (key value : String) : Header :=
  (h.filter fun kv => kv.1 ≠ E.canonicalHeaderKey key) ++ [(E.canonicalHeaderKey key, [value])]

/-- Go `Header.Add`: the value is appended under the canonical key. -/
def headerAdd (E : Env) (h : Header) (key value : String) : Header :=
  if h.any (fun kv => kv.1 = E.canonicalHeaderKey key) then
    h.map fun kv => if kv.1 = E.canonicalHeaderKey key then (kv.1, kv.2 ++ [value]) else kv
  else h ++ [(E.canonicalHeaderKey key, [value])]

/-- Go `removeEmptyPort`: a host that ends in a colon after its last `]`
loses that colon. -/
def removeEmptyPort (host : String) : String :=
  if (host.data.reverse.takeWhile fun c => c ≠ ']').contains ':' ∧
      host.data.getLast? = some ':' then String.mk host.data.dropLast
  else host

/-- Go `http.NewRequest(method, url, nil)` for a valid method: the request,
or the error of `url.Parse`. -/
def NewRequest (E : Env) (method rawurl : String) : Except String Request :=
  match url.Parse E rawurl with
  | .error err => .error err
  | .ok u => .ok { Method := method, URL := { u with Host := removeEmptyPort u.Host } }

end http

/-- The command-line flags after `flag.Parse` (`-t -c -r -p -uO -pO -s -h`). -/
structure Flags where
  urlFlag : String := ""
  cookie : String := ""
  customHeader : String := ""
  proxyFlag : String := ""
  urlOnly : Bool := false
  pathOnly : Bool := false
  silentMode : Bool := false
  helpFlag : Bool := false
  deriving DecidableEq, Repr

/-- A run of the program: what it did, and whether it ended in a panic. -/
structure Run where
  events : List Event
  panicked : Bool := false
  deriving DecidableEq, Repr

/-- The help text `main` prints for `-h` (lines 41-55). -/
def helpText (E : Env) : List Event :=
  [ println "gourlex is a tool for extracting URLs from a webpage.",
    println "\nUsage:",
    .stdout ("  " ++ E.progName ++ " [arguments]\n"),
    println "\nThe arguments are:",
    println "  -t string    Specify the target URL (e.g., domain.com or https://domain.com)",
    println "  -c string    Specify cookies (e.g., user_token=g3p21ip21h; )",
    println "  -r string    Specify headers (e.g., Myheader: test )",
    println "  -p string    Specify the proxy URL (e.g., 127.0.0.1:8080)",
    println "  -s           Silent Mode, avoid printing banner and other messages",
    println "  -uO          Extract only full URLs",
    println "  -pO          Extract only URL paths",
    println "  -h           Display help",
    println "\nExample:",
    println "  gourlex -t domain.com " ]

/-- The user agent `main` sets (line 104). -/
def userAgent : String :=
  "Mozilla/5.0 (Windows NT 10.0; Win64; x64) AppleWebKit/537.36 (KHTML, like Gecko) Chrome/58.0.3029.110 Safari/537.3"

/-- Lines 99-136 of `main`: build the request, send it, extract and print. -/
def fetchAndPrint (E : Env) (f : Flags) (client : http.Client) (validUrl : String) : Run :=
  match http.NewRequest E "GET" validUrl with
  | .error err => { events := [println err] }
  | .ok req0 =>
    let h1 := http.headerSet E req0.Header "User-Agent" userAgent
    let h2 := if f.cookie ≠ "" then http.headerSet E h1 "Cookie" f.cookie else h1
    let parts := strings.Cut f.customHeader ':'
    let h3 :=
      if f.customHeader ≠ "" ∧ parts.2.2 = true then
        http.headerAdd E h2 (strings.TrimSpace parts.1) (strings.TrimSpace parts.2.1)
      else h2
    let warning : List Event :=
      if f.customHeader ≠ "" ∧ parts.2.2 = false then
        [.stdout ("Invalid header format: " ++ f.customHeader ++ "\n")]
      else []
    let req : http.Request := { req0 with Header := h3 }
    match E.Do client req with
    | .error err => { events := warning ++ [.httpDo client req, println err] }
    | .ok resp =>
      let notice : List Event :=
        if !f.silentMode then
          [.stdout ("\x1b[1;97mExtracting URLs from: " ++ f.urlFlag ++ "\x1b[0m\n\n")]
        else []
      match extractURLsAndPathsFromResponse E resp with
      | (_, _, some err) =>
        { events := warning ++ [.httpDo client req] ++ notice ++ [println err, .closeBody] }
      | (urls, paths, none) =>
        { events := warning ++ [.httpDo client req] ++ notice ++
            printURLsAndPaths urls paths f.urlOnly f.pathOnly f.silentMode ++ [.closeBody] }

/-- `main` of gourlex.go, from the parsed flags on. -/
def main (E : Env) (f : Flags) : Run :=
  if f.helpFlag then { events := helpText E }
  else
    let banner := if !f.silentMode then printBanner else []
    if f.urlFlag = "" then
      { events := banner ++
          [println "Please provide a target.\n Example usage: gourlex -t domain.com\n Use -h for help."] }
    else
      match validateUrl E f.urlFlag with
      | (lookups, .panicked _) => { events := banner ++ lookups, panicked := true }
      | (lookups, .error err) =>
        { events := banner ++ lookups ++ [.stdout ("Error: " ++ err ++ "\n\n")] }
      | (lookups, .ok validUrl) =>
        if f.urlOnly && f.pathOnly then
          { events := banner ++ lookups ++ [println "You can't use both -uO and -pO flags together"] }
        else if f.proxyFlag ≠ "" then
          if isValidProxy E f.proxyFlag then
            let proxyNote : List Event :=
              if !f.silentMode then [.stdout ("Using proxy: " ++ f.proxyFlag ++ "\n\n")] else []
            match createHTTPClientWProxy E f.proxyFlag with
            | .panicked _ => { events := banner ++ lookups ++ proxyNote, panicked := true }
            | .error err => { events := banner ++ lookups ++ proxyNote ++ [println err] }
            | .ok client =>
              { events := banner ++ lookups ++ proxyNote ++ (fetchAndPrint E f client validUrl).events,
                panicked := (fetchAndPrint E f client validUrl).panicked }
          else
            { events := banner ++ lookups ++
                [println ("Invalid proxy: " ++ f.proxyFlag),
                 println "Please insert a valid proxy in the ip:port format"] }
        else
          { events := banner ++ lookups ++ (fetchAndPrint E f {} validUrl).events,
            panicked := (fetchAndPrint E f {} validUrl).panicked }

/-! ## A concrete environment

`Sample.env` is one environment on which the model can be run.  Its `net/url`
and `net` services are written after the Go 1.22 sources; its network answers
are fixed.  Where percent-decoding would produce bytes that are not UTF-8 the
decoder answers with an error, because such a Go string has no counterpart in
this model.  The theorems about the program quantify over every environment;
this one serves to evaluate the program on concrete inputs. -/

namespace Sample

/-- Go `strconv.Quote`, for printable ASCII text. -/
def quote (s : String) : String :=
  String.mk ('"' :: (s.data.flatMap fun c => if c = '"' ∨ c = '\\' then ['\\', c] else [c]) ++ ['"'])

/-- The `encoding` modes of `net/url`. -/
inductive Encoding where
  | encodePath
  | encodePathSegment
  | encodeHost
  | encodeZone
  | encodeUserPassword
  | encodeQueryComponent
  | encodeFragment
  deriving DecidableEq, Repr

/-- Go `shouldEscape` on a byte. -/
def shouldEscape (b : Nat) (mode : Encoding) : Bool :=
  let c := Char.ofNat b
  if b < 0x80 ∧ (c.isAlphanum = true) then false
  else if (mode = .encodeHost ∨ mode = .encodeZone) ∧ b < 0x80 ∧ c ∈ ['!', '$', '&', '\'', '(', ')',
      '*', '+', ',', ';', '=', ':', '[', ']', '<', '>', '"'] then false
  else if b < 0x80 ∧ c ∈ ['-', '_', '.', '~'] then false
  else if b < 0x80 ∧ c ∈ ['$', '&', '+', ',', '/', ':', ';', '=', '?', '@'] then
    match mode with
    | .encodePath => c = '?'
    | .encodePathSegment => c = '/' ∨ c = ';' ∨ c = ',' ∨ c = '?'
    | .encodeUserPassword => c = '@' ∨ c = '/' ∨ c = '?' ∨ c = ':'
    | .encodeQueryComponent => true
    | .encodeFragment => false
    | _ => true
  else if mode = .encodeFragment ∧ b < 0x80 ∧ c ∈ ['!', '(', ')', '*'] then false
  else true

/-- Go `ishex` and `unhex`: the value of a hexadecimal digit. -/
def unhex (c : Char) : Option Nat :=
  if '0'.toNat ≤ c.toNat ∧ c.toNat ≤ '9'.toNat then some (c.toNat - '0'.toNat)
  else if 'a'.toNat ≤ c.toNat ∧ c.toNat ≤ 'f'.toNat then some (c.toNat - 'a'.toNat + 10)
  else if 'A'.toNat ≤ c.toNat ∧ c.toNat ≤ 'F'.toNat then some (c.toNat - 'A'.toNat + 10)
  else none

/-- The UTF-8 bytes of a character. -/
def utf8Bytes (c : Char) : List Nat :=
  let n := c.toNat
  if n < 0x80 then [n]
  else if n < 0x800 then [0xC0 + n / 64, 0x80 + n % 64]
  else if n < 0x10000 then [0xE0 + n / 4096, 0x80 + n / 64 % 64, 0x80 + n % 64]
  else [0xF0 + n / 262144, 0x80 + n / 4096 % 64, 0x80 + n / 64 % 64, 0x80 + n % 64]

/-- Is the byte a UTF-8 continuation byte. -/
def isCont (b : Nat) : Bool := 0x80 ≤ b && b < 0xC0

/-- The text a byte sequence encodes in UTF-8, if it is valid UTF-8. -/
def utf8Decode : Nat → List Nat → Option (List Char)
  | 0, _ => none
  | _ + 1, [] => some []
  | fuel + 1, b0 :: rest =>
    if b0 < 0x80 then (utf8Decode fuel rest).map (Char.ofNat b0 :: ·)
    else if 0xC2 ≤ b0 ∧ b0 < 0xE0 then
      match rest with
      | b1 :: r =>
        if isCont b1 then (utf8Decode fuel r).map (Char.ofNat ((b0 - 0xC0) * 64 + (b1 - 0x80)) :: ·)
        else none
      | _ => none
    else if 0xE0 ≤ b0 ∧ b0 < 0xF0 then
      match rest with
      | b1 :: b2 :: r =>
        let n := (b0 - 0xE0) * 4096 + (b1 - 0x80) * 64 + (b2 - 0x80)
        if isCont b1 ∧ isCont b2 ∧ 0x800 ≤ n ∧ ¬ (0xD800 ≤ n ∧ n < 0xE000) then
          (utf8Decode fuel r).map (Char.ofNat n :: ·)
        else none
      | _ => none
    else if 0xF0 ≤ b0 ∧ b0 < 0xF5 then
      match rest with
      | b1 :: b2 :: b3 :: r =>
        let n := (b0 - 0xF0) * 262144 + (b1 - 0x80) * 4096 + (b2 - 0x80) * 64 + (b3 - 0x80)
        if isCont b1 ∧ isCont b2 ∧ isCont b3 ∧ 0x10000 ≤ n ∧ n < 0x110000 then
          (utf8Decode fuel r).map (Char.ofNat n :: ·)
        else none
      | _ => none
    else none

/-- The first pass of Go `unescape`: the error of the first malformed or
forbidden escape, or of the first byte a host may not hold. -/
def unescapeCheck (mode : Encoding) : List Char → Except String Unit
  | [] => .ok ()
  | '%' :: cs =>
    match cs with
    | h :: l :: rest =>
      match unhex h, unhex l with
      | some hv, some lv =>
        if mode = .encodeHost ∧ hv < 8 ∧ ¬ (h = '2' ∧ l = '5') then
          .error ("invalid URL escape " ++ quote (String.mk ['%', h, l]))
        else if mode = .encodeZone ∧ ¬ (h = '2' ∧ l = '5') ∧ hv * 16 + lv ≠ 0x20 ∧
            shouldEscape (hv * 16 + lv) .encodeHost = true then
          .error ("invalid URL escape " ++ quote (String.mk ['%', h, l]))
        else unescapeCheck mode rest
      | _, _ => .error ("invalid URL escape " ++ quote (String.mk ('%' :: cs.take 2)))
    | _ => .error ("invalid URL escape " ++ quote (String.mk ('%' :: cs.take 2)))
  | c :: cs =>
    if (mode = .encodeHost ∨ mode = .encodeZone) ∧ c.toNat < 0x80 ∧
        shouldEscape c.toNat .encodeHost = true then
      .error ("invalid character " ++ quote (String.mk [c]) ++ " in host name")
    else unescapeCheck mode cs

/-- The second pass of Go `unescape`: the decoded bytes. -/
def unescapeBytes (mode : Encoding) : List Char → List Nat
  | [] => []
  | '%' :: h :: l :: rest =>
    ((unhex h).getD 0 * 16 + (unhex l).getD 0) :: unescapeBytes mode rest
  | c :: cs =>
    if c = '+' ∧ mode = .encodeQueryComponent then 0x20 :: unescapeBytes mode cs
    else utf8Bytes c ++ unescapeBytes mode cs

/-- Go `unescape`. -/
def unescape (s : String) (mode : Encoding) : Except String String :=
  match unescapeCheck mode s.data with
  | .error e => .error e
  | .ok _ =>
    if '%' ∉ s.data ∧ ¬ (mode = .encodeQueryComponent ∧ '+' ∈ s.data) then .ok s
    else
      match utf8Decode ((unescapeBytes mode s.data).length + 1) (unescapeBytes mode s.data) with
      | some cs => .ok (String.mk cs)
      | none => .error "decoded text is not UTF-8"

/-- An upper-case hexadecimal digit. -/
def upperhex (n : Nat) : Char :=
  if n < 10 then Char.ofNat ('0'.toNat + n) else Char.ofNat ('A'.toNat + (n - 10))

/-- Go `escape`. -/
def escape (s : String) (mode : Encoding) : String :=
  String.mk (s.data.flatMap fun c =>
    (utf8Bytes c).flatMap fun b =>
      if shouldEscape b mode = true then
        if b = 0x20 ∧ mode = .encodeQueryComponent then ['+']
        else ['%', upperhex (b / 16), upperhex (b % 16)]
      else [Char.ofNat b])

/-- Go `validEncoded`. -/
def validEncoded (s : String) (mode : Encoding) : Bool :=
  s.data.all fun c =>
    if c ∈ ['!', '$', '&', '\'', '(', ')', '*', '+', ',', ';', '=', ':', '@', '[', ']', '%'] then true
    else (utf8Bytes c).all fun b => !shouldEscape b mode

/-- The text before and after the last occurrence of a character. -/
def cutLast (sep : Char) (l : List Char) : Option (List Char × List Char) :=
  let r := strings.cutChars sep l.reverse
  if r.2.2 then some (r.2.1.reverse, r.1.reverse) else none

/-- The text before the first occurrence of `pat`, and the text from it on. -/
def cutAt (pat : List Char) : List Char → Option (List Char × List Char)
  | [] => if pat = [] then some ([], []) else none
  | c :: cs =>
    if pat.isPrefixOf (c :: cs) then some ([], c :: cs)
    else (cutAt pat cs).map fun r => (c :: r.1, r.2)

/-- Go `validOptionalPort`: empty, or a colon followed by digits. -/
def validOptionalPort (port : List Char) : Bool :=
  match port with
  | [] => true
  | c :: ds => c = ':' && ds.all fun d => '0'.toNat ≤ d.toNat && d.toNat ≤ '9'.toNat

/-- Go `parseHost`. -/
def parseHost (host : String) : Except String String :=
  match host.data with
  | '[' :: _ =>
    match cutLast ']' host.data with
    | none => .error "missing ']' in host"
    | some (inner, colonPort) =>
      if validOptionalPort colonPort = false then
        .error ("invalid port " ++ quote (String.mk colonPort) ++ " after host")
      else
        match cutAt ['%', '2', '5'] inner with
        | some (h1, zone) =>
          match unescape (String.mk h1) .encodeHost, unescape (String.mk zone) .encodeZone,
            unescape (String.mk (']' :: colonPort)) .encodeHost with
          | .ok a, .ok b, .ok c => .ok (a ++ b ++ c)
          | .error e, _, _ => .error e
          | _, .error e, _ => .error e
          | _, _, .error e => .error e
        | none => unescape host .encodeHost
  | _ =>
    match cutLast ':' host.data with
    | some (_, port) =>
      if validOptionalPort (':' :: port) = false then
        .error ("invalid port " ++ quote (String.mk (':' :: port)) ++ " after host")
      else unescape host .encodeHost
    | none => unescape host .encodeHost

/-- Go `validUserinfo`. -/
def validUserinfo (s : List Char) : Bool :=
  s.all fun r =>
    (r.toNat < 0x80 && r.isAlphanum) ||
      decide (r ∈ ['-', '.', '_', ':', '~', '!', '$', '&', '\'', '(', ')', '*', '+', ',', ';',
        '=', '%', '@'])

/-- Go `parseAuthority`: the user name, the password if there is one, and
the host; `none` for the first component when there is no user information. -/
def parseAuthority (authority : String) :
    Except String (Option (String × Option String) × String) :=
  match cutLast '@' authority.data with
  | none =>
    match parseHost authority with
    | .error e => .error e
    | .ok host => .ok (none, host)
  | some (userinfo, hostPart) =>
    match parseHost (String.mk hostPart) with
    | .error e => .error e
    | .ok host =>
      if validUserinfo userinfo = false then .error "net/url: invalid userinfo"
      else if ':' ∉ userinfo then
        match unescape (String.mk userinfo) .encodeUserPassword with
        | .error e => .error e
        | .ok u => .ok (some (u, none), host)
      else
        match unescape (strings.Cut (String.mk userinfo) ':').1 .encodeUserPassword,
          unescape (strings.Cut (String.mk userinfo) ':').2.1 .encodeUserPassword with
        | .ok u, .ok pw => .ok (some (u, some pw), host)
        | .error e, _ => .error e
        | _, .error e => .error e

/-- Go `URL.setPath`: the decoded path and the raw path kept beside it. -/
def setPath (p : String) : Except String (String × String) :=
  match unescape p .encodePath with
  | .error e => .error e
  | .ok path => if escape path .encodePath = p then .ok (path, "") else .ok (path, p)

/-- Go `URL.setFragment`: the decoded fragment and the raw one kept beside
it. -/
def setFragment (f : String) : Except String (String × String) :=
  match unescape f .encodeFragment with
  | .error e => .error e
  | .ok frag => if escape frag .encodeFragment = f then .ok (frag, "") else .ok (frag, f)

/-- The steps of Go `url.parse` (with `viaRequest = false`) that follow the
extraction of the scheme: query, opaque form, authority, path. -/
def parseAfterScheme (scheme rest0 : String) : Except String URL :=
  let force : Bool :=
    rest0.data.getLast? = some '?' && rest0.data.count '?' = 1
  let rest : String := if force then String.mk rest0.data.dropLast else (strings.Cut rest0 '?').1
  let rawQuery : String := if force then "" else (strings.Cut rest0 '?').2.1
  if strings.HasPrefix rest "/" = false ∧ scheme ≠ "" then
    .ok { Opaque := rest, ForceQuery := force, RawQuery := rawQuery }
  else if strings.HasPrefix rest "/" = false ∧ ':' ∈ (strings.Cut rest '/').1.data then
    .error "first path segment in URL cannot contain colon"
  else if (scheme ≠ "" ∨ strings.HasPrefix rest "///" = false) ∧ strings.HasPrefix rest "//" = true then
    let afterSlashes := rest.data.drop 2
    let authority : List Char := (cutAt ['/'] afterSlashes).elim afterSlashes (·.1)
    let pathPart : List Char := (cutAt ['/'] afterSlashes).elim [] (·.2)
    match parseAuthority (String.mk authority) with
    | .error e => .error e
    | .ok (user, host) =>
      match setPath (String.mk pathPart) with
      | .error e => .error e
      | .ok (path, rawPath) =>
        .ok { HasUser := user.isSome, Username := (user.map (·.1)).getD "",
              Password := user.bind (·.2), Host := host, Path := path, RawPath := rawPath,
              ForceQuery := force, RawQuery := rawQuery }
  else
    match setPath rest with
    | .error e => .error e
    | .ok (path, rawPath) =>
      .ok { Path := path, RawPath := rawPath, ForceQuery := force, RawQuery := rawQuery,
            OmitHost := decide (scheme ≠ "") && strings.HasPrefix rest "/" }

/-- Does `raw` unescape, without error, to `target`. -/
def decodesTo (raw : String) (mode : Encoding) (target : String) : Bool :=
  match unescape raw mode with
  | .ok p => p = target
  | .error _ => false

/-- Go `URL.EscapedPath`. -/
def EscapedPath (u : URL) : String :=
  if u.RawPath ≠ "" ∧ validEncoded u.RawPath .encodePath = true ∧
      decodesTo u.RawPath .encodePath u.Path = true then u.RawPath
  else if u.Path = "*" then "*"
  else escape u.Path .encodePath

/-- Go `URL.EscapedFragment`. -/
def EscapedFragment (u : URL) : String :=
  if u.RawFragment ≠ "" ∧ validEncoded u.RawFragment .encodeFragment = true ∧
      decodesTo u.RawFragment .encodeFragment u.Fragment = true then u.RawFragment
  else escape u.Fragment .encodeFragment

/-- Go `URL.RequestURI`. -/
def RequestURI (u : URL) : String :=
  let base : String :=
    if u.Opaque = "" then (if EscapedPath u = "" then "/" else EscapedPath u)
    else if strings.HasPrefix u.Opaque "//" then u.Scheme ++ ":" ++ u.Opaque
    else u.Opaque
  if u.ForceQuery ∨ u.RawQuery ≠ "" then base ++ "?" ++ u.RawQuery else base

/-- Go `URL.String`. -/
def URLString (u : URL) : String :=
  let scheme : String := if u.Scheme ≠ "" then u.Scheme ++ ":" else ""
  let userinfo : String :=
    if u.HasUser then
      escape u.Username .encodeUserPassword ++
        (match u.Password with
         | some pw => ":" ++ escape pw .encodeUserPassword
         | none => "") ++ "@"
    else ""
  let authority : String :=
    if (u.Scheme ≠ "" ∨ u.Host ≠ "" ∨ u.HasUser = true) ∧
        ¬ (u.OmitHost = true ∧ u.Host = "" ∧ u.HasUser = false) then
      (if u.Host ≠ "" ∨ u.Path ≠ "" ∨ u.HasUser = true then "//" else "") ++ userinfo ++
        (if u.Host ≠ "" then escape u.Host .encodeHost else "")
    else ""
  let path := EscapedPath u
  let slash : String :=
    if path ≠ "" ∧ path.data.head? ≠ some '/' ∧ u.Host ≠ "" then "/" else ""
  let dotSlash : String :=
    if scheme ++ authority ++ slash = "" ∧ ':' ∈ (strings.Cut path '/').1.data then "./" else ""
  let body : String :=
    if u.Opaque ≠ "" then scheme ++ u.Opaque
    else scheme ++ authority ++ slash ++ dotSlash ++ path
  let query : String := if u.ForceQuery ∨ u.RawQuery ≠ "" then "?" ++ u.RawQuery else ""
  let fragment : String := if u.Fragment ≠ "" then "#" ++ EscapedFragment u else ""
  body ++ query ++ fragment

/-- The text of a Go `net.AddrError`. -/
def addrError (addr why : String) : String :=
  if addr ≠ "" then "address " ++ addr ++ ": " ++ why else why

/-- Go `net.SplitHostPort`. -/
def SplitHostPort (hostport : String) : Except String (String × String) :=
  match cutLast ':' hostport.data with
  | none => .error (addrError hostport "missing port in address")
  | some (beforeColon, port) =>
    match hostport.data with
    | '[' :: afterOpen =>
      let r := strings.cutChars ']' afterOpen
      if r.2.2 = false then .error (addrError hostport "missing ']' in address")
      else if r.2.1 = [] then .error (addrError hostport "missing port in address")
      else if r.1.length + 2 ≠ beforeColon.length then
        (if r.2.1.head? = some ':' then .error (addrError hostport "too many colons in address")
         else .error (addrError hostport "missing port in address"))
      else if '[' ∈ afterOpen then .error (addrError hostport "unexpected '[' in address")
      else if ']' ∈ r.2.1 then .error (addrError hostport "unexpected ']' in address")
      else .ok (String.mk r.1, String.mk port)
    | _ =>
      if ':' ∈ beforeColon then .error (addrError hostport "too many colons in address")
      else if '[' ∈ hostport.data then .error (addrError hostport "unexpected '[' in address")
      else if ']' ∈ hostport.data then .error (addrError hostport "unexpected ']' in address")
      else .ok (String.mk beforeColon, String.mk port)

/-- The hexadecimal digits at the head of a text (Go `netip.parseIPv6`, inner
loop): how many there are and what follows, or `none` for more than four. -/
def hexRun : List Char → Nat → Option (Nat × List Char)
  | [], off => some (off, [])
  | c :: cs, off =>
    match unhex c with
    | none => some (off, c :: cs)
    | some _ => if off > 3 then none else hexRun cs (off + 1)

/-- The outer loop of Go `netip.parseIPv6`: `i` counts the bytes filled in,
`ellipsis` tells whether `::` has been seen.  The result is what is left of
the text, `i` and `ellipsis`, or `none` for an error. -/
def parseIPv6Loop : Nat → List Char → Nat → Bool → Option (List Char × Nat × Bool)
  | 0, _, _, _ => none
  | fuel + 1, s, i, ellipsis =>
    if 16 ≤ i then some (s, i, ellipsis)
    else
      match hexRun s 0 with
      | none => none
      | some (off, after) =>
        if off = 0 then none
        else
          match after with
          | [] => some ([], i + 2, ellipsis)
          | '.' :: _ =>
            if ellipsis = false ∧ i ≠ 12 then none
            else if i + 4 > 16 then none
            else if net.parseIPv4 (String.mk s) = false then none
            else some ([], i + 4, ellipsis)
          | ':' :: rest =>
            match rest with
            | [] => none
            | ':' :: rest2 =>
              if ellipsis then none
              else if rest2 = [] then some ([], i + 2, true)
              else parseIPv6Loop fuel rest2 (i + 2) true
            | _ => parseIPv6Loop fuel rest (i + 2) ellipsis
          | _ => none

/-- Go `netip.parseIPv6` for `net.ParseIP`: is the text an IPv6 literal
without zone. -/
def parseIPv6 (text : String) : Bool :=
  if '%' ∈ text.data then false
  else
    let lead : Bool := (text.data.take 2 = [':', ':'])
    let s : List Char := if lead then text.data.drop 2 else text.data
    if lead ∧ s = [] then true
    else
      match parseIPv6Loop 17 s 0 lead with
      | none => false
      | some (left, i, ellipsis) =>
        if left ≠ [] then false
        else if i < 16 then ellipsis
        else !ellipsis

/-- A resolver that knows three names and every IP literal. -/
def LookupHost (host : String) : Except String (List String) :=
  if net.ParseIP parseIPv6 host = true then .ok [host]
  else if host = "localhost" then .ok ["127.0.0.1"]
  else if host = "example.com" ∨ host = "www.example.com" then .ok ["192.0.2.1"]
  else .error ("lookup " ++ host ++ ": no such host")

/-- Go `textproto.CanonicalMIMEHeaderKey`. -/
def canonicalHeaderKey (key : String) : String :=
  let valid : Bool := key.data.all fun c =>
    c.toNat < 0x80 && (c.isAlphanum ||
      decide (c ∈ ['!', '#', '$', '%', '&', '\'', '*', '+', '-', '.', '^', '_', '`', '|', '~']))
  if valid = false then key
  else
    String.mk (key.data.foldl (fun (acc : List Char × Bool) c =>
      (acc.1 ++ [if acc.2 then c.toUpper else c.toLower], c = '-')) ([], true)).1

/-- The page every request is answered with. -/
def page : http.Response :=
  { Body := { tokens :=
      [ { Typ := .StartTagToken, Data := "a", Attr := [{ Key := "href", Val := "/about" }] },
        { Typ := .TextToken, Data := "About" },
        { Typ := .EndTagToken, Data := "a" },
        { Typ := .SelfClosingTagToken, Data := "img",
          Attr := [{ Key := "src", Val := "https://example.com/logo.png" }] } ] } }

/-- The concrete environment. -/
def env : Env where
  progName := "gourlex"
  quote := quote
  parseIPv6 := parseIPv6
  parseAfterScheme := parseAfterScheme
  setFragment := setFragment
  URLString := URLString
  RequestURI := RequestURI
  SplitHostPort := SplitHostPort
  LookupHost := LookupHost
  canonicalHeaderKey := canonicalHeaderKey
  Do := fun _ _ => .ok page

end Sample

/-! ## Specification-side notions and sample inputs -/

/-- The number a run of decimal digits denotes when read after the value `n`. -/
def decimalFrom (n : Nat) (g : List Char) : Nat :=
  g.foldl (fun acc c => acc * 10 + (c.toNat - '0'.toNat)) n

/-- A decimal octet: at least one digit, no leading zero, at most 255. -/
def IsOctet (f : List Char) : Prop :=
  f ≠ [] ∧ (∀ c ∈ f, (strconv.digitVal c).isSome = true) ∧
    (f.head? = some '0' → f.length = 1) ∧ decimalFrom 0 f ≤ 255

/-- An IPv4 address in dotted-decimal form: four decimal octets separated by
dots. -/
def IsDottedDecimal (ip : String) : Prop :=
  ∃ f1 f2 f3 f4, ip.data = f1 ++ '.' :: (f2 ++ '.' :: (f3 ++ '.' :: f4)) ∧
    IsOctet f1 ∧ IsOctet f2 ∧ IsOctet f3 ∧ IsOctet f4

/-- The fields of a list, each preceded by a dot. -/
def dotted : List (List Char) → List Char
  | [] => []
  | f :: fs => '.' :: (f ++ dotted fs)

/-- As the specification words the classification rule: the entry a value adds
to `urls` (first component) or to `paths` (second component). -/
def classify (E : Env) (v : String) : List String × List String :=
  if strings.HasPrefix v "http://" = true ∨ strings.HasPrefix v "https://" = true then ([v], [])
  else
    match url.Parse E v with
    | .ok u => if u.Scheme = "http" ∨ u.Scheme = "https" then ([E.URLString u], []) else ([], [v])
    | .error _ => ([], [v])

/-- The trimmed `href` value of a tag. -/
def hrefOf (token : html.Token) : String := (scanAttrs token.Attr "" "").1

/-- The trimmed `src` value of a tag. -/
def srcOf (token : html.Token) : String := (scanAttrs token.Attr "" "").2

/-- What the `href` block of the loop body appends for a tag. -/
def hrefEntries (E : Env) (token : html.Token) : List String × List String :=
  if hrefOf token ≠ "" ∧ hrefOf token ≠ "#" then classify E (hrefOf token) else ([], [])

/-- What the `src` block of the loop body appends for a tag. -/
def srcEntries (E : Env) (token : html.Token) : List String × List String :=
  if srcOf token ≠ "" ∧ hrefOf token ≠ "#" then classify E (srcOf token) else ([], [])

/-- The tag `<img src="#">`. -/
def imgSrcHash : html.Token :=
  { Typ := .StartTagToken, Data := "img", Attr := [{ Key := "src", Val := "#" }] }

/-- A response whose body breaks off with a read error after one link. -/
def truncatedResponse : http.Response :=
  { Body := { tokens := [{ Typ := .StartTagToken, Data := "a",
                           Attr := [{ Key := "href", Val := "/about" }] }],
              stop := .ioError "unexpected EOF" } }

/-- The tag `<link href="/style.css" src="http://cdn.example.com/x.js">`. -/
def linkTag : html.Token :=
  { Typ := .StartTagToken, Data := "link",
    Attr := [{ Key := "href", Val := " /style.css" },
             { Key := "src", Val := "http://cdn.example.com/x.js " }] }

/-- The tag `<a href="#" src="/logo.png">`. -/
def hashTag : html.Token :=
  { Typ := .StartTagToken, Data := "a",
    Attr := [{ Key := "href", Val := "#" }, { Key := "src", Val := "/logo.png" }] }

/-- Three links: two paths and one URL. -/
def linkA : html.Token :=
  { Typ := .StartTagToken, Data := "a", Attr := [{ Key := "href", Val := "/a" }] }

/-- The second link, a self-closing tag with a `src`. -/
def linkB : html.Token :=
  { Typ := .SelfClosingTagToken, Data := "img", Attr := [{ Key := "src", Val := "/b" }] }

/-- The third link, a full URL. -/
def linkC : html.Token :=
  { Typ := .StartTagToken, Data := "a", Attr := [{ Key := "href", Val := "https://c.example/" }] }

/-- The texts written to standard output, in order. -/
def printed : List Event → List String
  | [] => []
  | .stdout text :: es => text :: printed es
  | _ :: es => printed es

/-! ## Lemmas on `strings.Split` -/

theorem splitChars_ne_nil (sep : Char) (l : List Char) : strings.splitChars sep l ≠ [] := by
  cases l with
  | nil => simp [strings.splitChars]
  | cons c cs =>
    unfold strings.splitChars
    split
    · simp
    · split <;> simp

theorem splitChars_decomp (sep : Char) (l : List Char) :
    ∃ p ps, strings.splitChars sep l = p :: ps ∧ sep ∉ p ∧
      ((ps = [] ∧ l = p) ∨ (∃ rest, l = p ++ sep :: rest ∧ strings.splitChars sep rest = ps)) := by
  induction l with
  | nil => exact ⟨[], [], by simp [strings.splitChars]⟩
  | cons c cs ih =>
    obtain ⟨p, ps, h, hp, hrest⟩ := ih
    by_cases hc : c = sep
    · refine ⟨[], strings.splitChars sep cs, by simp [strings.splitChars, hc], by simp,
        Or.inr ⟨cs, by simp [hc], rfl⟩⟩
    · refine ⟨c :: p, ps, by simp [strings.splitChars, hc, h], ?_, ?_⟩
      · simp only [List.mem_cons, not_or]
        exact ⟨fun h => hc h.symm, hp⟩
      · rcases hrest with ⟨h1, h2⟩ | ⟨rest, h1, h2⟩
        · exact Or.inl ⟨h1, by rw [h2]⟩
        · exact Or.inr ⟨rest, by rw [h1]; rfl, h2⟩

theorem splitChars_of_not_mem (sep : Char) (l : List Char) (h : sep ∉ l) :
    strings.splitChars sep l = [l] := by
  induction l with
  | nil => rfl
  | cons c cs ih =>
    simp only [List.mem_cons, not_or] at h
    have hc : ¬ c = sep := fun e => h.1 e.symm
    simp [strings.splitChars, hc, ih h.2]

theorem splitChars_append (sep : Char) (a b : List Char) (h : sep ∉ a) :
    strings.splitChars sep (a ++ sep :: b) = a :: strings.splitChars sep b := by
  induction a with
  | nil => simp [strings.splitChars]
  | cons c cs ih =>
    simp only [List.mem_cons, not_or] at h
    have hc : ¬ c = sep := fun e => h.1 e.symm
    simp [strings.splitChars, hc, ih h.2]

theorem splitChars_eq_pair (sep : Char) (l a b : List Char) :
    strings.splitChars sep l = [a, b] ↔ l = a ++ sep :: b ∧ sep ∉ a ∧ sep ∉ b := by
  constructor
  · intro h
    obtain ⟨p, ps, hp, hnp, hrest⟩ := splitChars_decomp sep l
    rw [h] at hp
    simp only [List.cons.injEq] at hp
    obtain ⟨rfl, rfl⟩ := hp
    rcases hrest with ⟨h1, _⟩ | ⟨rest, h1, h2⟩
    · simp at h1
    · obtain ⟨q, qs, hq, hnq, hrest2⟩ := splitChars_decomp sep rest
      rw [h2] at hq
      simp only [List.cons.injEq] at hq
      obtain ⟨rfl, rfl⟩ := hq
      rcases hrest2 with ⟨_, h3⟩ | ⟨rest2, _, h4⟩
      · subst h3; exact ⟨h1, hnp, hnq⟩
      · exact absurd h4 (splitChars_ne_nil sep rest2)
  · rintro ⟨rfl, ha, hb⟩
    rw [splitChars_append sep a b ha, splitChars_of_not_mem sep b hb]

theorem splitChars_length_two (sep : Char) (l : List Char)
    (h : (strings.splitChars sep l).length = 2) :
    ∃ a b, strings.splitChars sep l = [a, b] := by
  match hs : strings.splitChars sep l, h with
  | [a, b], _ => exact ⟨a, b, rfl⟩

/-- The value of `isValidProxy` once the input is known to split in two. -/
theorem isValidProxy_of_split (E : Env) (s : String) (a b : List Char)
    (h : strings.splitChars ':' s.data = [a, b]) :
    isValidProxy E s =
      (net.ParseIP E.parseIPv6 (String.mk a) &&
        match strconv.Atoi (String.mk b) with
        | .ok port => decide (1 ≤ port ∧ port ≤ 65535)
        | .error _ => false) := by
  unfold isValidProxy strings.Split
  simp only [h, List.map_cons, List.map_nil, List.length_cons, List.length_nil]
  cases hip : net.ParseIP E.parseIPv6 (String.mk a) <;> simp [hip]
  cases hport : strconv.Atoi (String.mk b) with
  | error e => simp
  | ok port =>
    dsimp only
    by_cases h1 : port < 1 <;> by_cases h2 : port > 65535 <;> simp [h1, h2]
    all_goals omega

/-! ## Lemmas on the IPv4 parser -/

theorem digitVal_eq_some {c : Char} {d : Nat} (h : strconv.digitVal c = some d) :
    d = c.toNat - '0'.toNat := by
  unfold strconv.digitVal at h
  split at h
  · exact (Option.some.inj h).symm
  · cases h

theorem digitVal_zero {d : Nat} (h : strconv.digitVal '0' = some d) : d = 0 := by
  rw [digitVal_eq_some h]; rfl

/-- What the loop of `parseIPv4` has read when it accepts: the rest of the
current octet, then the remaining octets, each after its dot. -/
theorem parseIPv4Loop_accepts (cs : List Char) :
    ∀ (val pos digLen : Nat) (first prevDot : Bool),
      val ≤ 255 → pos ≤ 3 →
      (digLen = 0 → val = 0 ∧ (first = true ∨ prevDot = true) ∧ (cs = [] → pos < 3)) →
      net.parseIPv4Loop cs val pos digLen first prevDot = true →
      ∃ g fs, cs = g ++ dotted fs ∧ pos + fs.length = 3 ∧
        (∀ c ∈ g, (strconv.digitVal c).isSome = true) ∧ decimalFrom val g ≤ 255 ∧
        (digLen = 1 ∧ val = 0 → g = []) ∧
        (digLen = 0 → g ≠ [] ∧ (g.head? = some '0' → g.length = 1)) ∧
        ∀ f ∈ fs, IsOctet f := by
  induction cs with
  | nil =>
    intro val pos digLen first prevDot hval hpos h0 h
    simp only [net.parseIPv4Loop, decide_eq_true_eq] at h
    refine ⟨[], [], rfl, by simp; omega, by simp, by simpa [decimalFrom] using hval,
      fun _ => rfl, ?_, by simp⟩
    intro hd
    have := (h0 hd).2.2 rfl
    omega
  | cons c cs ih =>
    intro val pos digLen first prevDot hval hpos h0 h
    unfold net.parseIPv4Loop at h
    split at h
    · rename_i d hd
      split at h
      · cases h
      · rename_i hlead
        split at h
        · cases h
        · rename_i hbig
          obtain ⟨g, fs, hcs, hlen, hdig, hv, hz, _, hfs⟩ :=
            ih (val * 10 + d) pos (digLen + 1) false false (by omega) hpos (by simp) h
          refine ⟨c :: g, fs, by rw [hcs]; rfl, hlen, ?_, ?_, ?_, ?_, hfs⟩
          · intro x hx
            rcases List.mem_cons.1 hx with rfl | hx
            · simp [hd]
            · exact hdig x hx
          · have : decimalFrom val (c :: g) = decimalFrom (val * 10 + d) g := by
              simp [decimalFrom, digitVal_eq_some hd]
            rw [this]; exact hv
          · intro hh; exact absurd hh hlead
          · intro hdl
            refine ⟨by simp, ?_⟩
            intro hhead
            simp only [List.head?_cons, Option.some.injEq] at hhead
            subst hhead
            have hd0 := digitVal_zero hd
            have hval0 := (h0 hdl).1
            have : g = [] := hz ⟨by omega, by subst hd0; subst hval0; rfl⟩
            simp [this]
    · split at h
      · rename_i hdot
        split at h
        · cases h
        · rename_i hguard
          split at h
          · cases h
          · rename_i hpos3
            simp only [not_or] at hguard
            obtain ⟨hfirst, hne, hprev⟩ := hguard
            obtain ⟨g, fs, hcs, hlen, hdig, hv, _, hstart, hfs⟩ :=
              ih 0 (pos + 1) 0 false true (by omega) (by omega)
                (fun _ => ⟨rfl, Or.inr rfl, fun e => absurd e hne⟩) h
            have hdl : digLen ≠ 0 := by
              intro hdl
              rcases (h0 hdl).2.1 with h1 | h1
              · exact hfirst h1
              · exact hprev h1
            refine ⟨[], g :: fs, by rw [hdot, hcs]; rfl, by simp; omega, by simp,
              by simpa [decimalFrom] using hval, fun _ => rfl, fun e => absurd e hdl, ?_⟩
            intro f hf
            rcases List.mem_cons.1 hf with rfl | hf
            · exact ⟨(hstart rfl).1, hdig, (hstart rfl).2, hv⟩
            · exact hfs f hf
      · cases h

/-- A text `parseIPv4` accepts is in dotted-decimal form. -/
theorem parseIPv4_dotted (ip : String) (h : net.parseIPv4 ip = true) : IsDottedDecimal ip := by
  obtain ⟨g, fs, hl, hlen, hdig, hv, _, hstart, hfs⟩ :=
    parseIPv4Loop_accepts ip.data 0 0 0 true false (by omega) (by omega)
      (fun _ => ⟨rfl, Or.inl rfl, fun _ => by omega⟩) h
  match fs, hlen, hfs, hl with
  | [f2, f3, f4], _, hfs, hl =>
    exact ⟨g, f2, f3, f4, by simpa [dotted] using hl,
      ⟨(hstart rfl).1, hdig, (hstart rfl).2, hv⟩,
      hfs f2 (by simp), hfs f3 (by simp), hfs f4 (by simp)⟩

/-- On a text without a colon `ParseAddr` never reaches the IPv6 parser. -/
theorem parseAddrChars_no_colon (v6 : String → Bool) (s : String) (l : List Char)
    (hl : ':' ∉ l) (h : net.parseAddrChars v6 s l = true) : net.parseIPv4 s = true := by
  induction l with
  | nil => simp [net.parseAddrChars] at h
  | cons c cs ih =>
    simp only [List.mem_cons, not_or] at hl
    unfold net.parseAddrChars at h
    split at h
    · exact h
    · split at h
      · rename_i hc; exact absurd hc.symm hl.1
      · split at h
        · cases h
        · exact ih hl.2 h

/-! ## Theorems on `isValidProxy` -/

/-- The inputs `isValidProxy` accepts. -/
theorem isValidProxy_accepts_iff (E : Env) (s : String) :
    isValidProxy E s = true ↔
      ∃ ip port : String, s = ip ++ ":" ++ port ∧ ':' ∉ ip.data ∧ ':' ∉ port.data ∧
        net.ParseIP E.parseIPv6 ip = true ∧
        ∃ p : Int, strconv.Atoi port = .ok p ∧ 1 ≤ p ∧ p ≤ 65535 := by
  refine ⟨fun h => ?_, ?_⟩
  · by_cases hlen : (strings.splitChars ':' s.data).length = 2
    · obtain ⟨a, b, hab⟩ := splitChars_length_two ':' s.data hlen
      rw [isValidProxy_of_split E s a b hab, Bool.and_eq_true] at h
      obtain ⟨hs, ha, hb⟩ := (splitChars_eq_pair ':' s.data a b).1 hab
      refine ⟨String.mk a, String.mk b, ?_, ha, hb, h.1, ?_⟩
      · apply String.ext
        simp [hs]
      · cases hport : strconv.Atoi (String.mk b) with
        | error e => rw [hport] at h; simp at h
        | ok port =>
          rw [hport] at h
          simp only [decide_eq_true_eq] at h
          exact ⟨port, rfl, h.2⟩
    · unfold isValidProxy strings.Split at h
      simp [hlen] at h
  · rintro ⟨ip, port, rfl, hip, hport, hparse, p, hp, h1, h2⟩
    have hab : strings.splitChars ':' (ip ++ ":" ++ port).data = [ip.data, port.data] := by
      apply (splitChars_eq_pair ':' _ ip.data port.data).2
      refine ⟨by simp, hip, hport⟩
    rw [isValidProxy_of_split E _ ip.data port.data hab]
    simp [hparse, hp, h1, h2]

/-- C4: `isValidProxy` accepts exactly the inputs made of two colon-free parts
around one colon, the first of which parses as an IP literal and the second as
an integer between 1 and 65535; it accepts "1.2.3.4:8080" and rejects
"not-an-ip:8080" and "1.2.3.4:99999". -/
theorem isValidProxy_iff (E : Env) :
    (∀ s : String, isValidProxy E s = true ↔
      ∃ ip port : String, s = ip ++ ":" ++ port ∧ ':' ∉ ip.data ∧ ':' ∉ port.data ∧
        net.ParseIP E.parseIPv6 ip = true ∧
        ∃ p : Int, strconv.Atoi port = .ok p ∧ 1 ≤ p ∧ p ≤ 65535) ∧
    isValidProxy E "1.2.3.4:8080" = true ∧
    isValidProxy E "not-an-ip:8080" = false ∧
    isValidProxy E "1.2.3.4:99999" = false :=
  ⟨fun s => isValidProxy_accepts_iff E s, rfl, rfl, rfl⟩

/-- C10: an input `isValidProxy` accepts has, before its only colon, an IPv4
address in dotted-decimal form: the address part has no colon, so it is never
an IPv6 literal. -/
theorem isValidProxy_ipv4_only (E : Env) (s : String) (h : isValidProxy E s = true) :
    ∃ ip port : String, s = ip ++ ":" ++ port ∧ ':' ∉ ip.data ∧ ':' ∉ port.data ∧
      IsDottedDecimal ip := by
  obtain ⟨ip, port, hs, hip, hport, hparse, _⟩ := (isValidProxy_accepts_iff E s).1 h
  exact ⟨ip, port, hs, hip, hport,
    parseIPv4_dotted ip (parseAddrChars_no_colon E.parseIPv6 ip ip.data hip hparse)⟩

/-- Witness of `isValidProxy_ipv4_only` at "1.2.3.4:8080". -/
theorem isValidProxy_ipv4_only_witness :
    isValidProxy Sample.env "1.2.3.4:8080" = true ∧
      ∃ ip port : String, "1.2.3.4:8080" = ip ++ ":" ++ port ∧ ':' ∉ ip.data ∧
        ':' ∉ port.data ∧ IsDottedDecimal ip :=
  ⟨rfl, isValidProxy_ipv4_only Sample.env "1.2.3.4:8080" rfl⟩

/-! ## Theorems on the link extractor -/

theorem classify_one (E : Env) (v : String) :
    (classify E v).1.length + (classify E v).2.length = 1 := by
  unfold classify
  split
  · rfl
  · split
    · split <;> rfl
    · rfl

theorem tagCase_eq (E : Env) (token : html.Token) (urls paths : List String) :
    tagCase E token urls paths =
      (urls ++ (hrefEntries E token).1 ++ (srcEntries E token).1,
       paths ++ (hrefEntries E token).2 ++ (srcEntries E token).2) := by
  unfold tagCase hrefEntries srcEntries classify hrefOf srcOf
  generalize (scanAttrs token.Attr "" "").1 = h
  generalize (scanAttrs token.Attr "" "").2 = sv
  by_cases h1 : h ≠ "" ∧ h ≠ "#" <;> by_cases h2 : sv ≠ "" ∧ h ≠ "#" <;>
    simp only [h1, h2, if_true, if_false, Bool.or_eq_true] <;>
    (repeat' split) <;> simp_all

/-- The loop only appends to its two accumulators and returns no error. -/
theorem tokenLoop_acc (E : Env) (tokens : List html.Token) :
    ∀ urls paths : List String,
      tokenLoop E tokens urls paths =
        (urls ++ (tokenLoop E tokens [] []).1, paths ++ (tokenLoop E tokens [] []).2.1, none) := by
  induction tokens with
  | nil => intro urls paths; simp [tokenLoop]
  | cons t rest ih =>
    intro urls paths
    unfold tokenLoop
    split
    · simp
    · rw [ih, ih (tagCase E t [] []).1]
      simp [tagCase_eq, List.append_assoc]
    · rw [ih, ih (tagCase E t [] []).1]
      simp [tagCase_eq, List.append_assoc]
    · exact ih urls paths

/-- Tokens that are not `ErrorToken` are all consumed before the next ones. -/
theorem tokenLoop_append (E : Env) (s1 s2 : List html.Token)
    (h : ∀ t ∈ s1, t.Typ ≠ .ErrorToken) :
    ∀ urls paths : List String,
      tokenLoop E (s1 ++ s2) urls paths =
        tokenLoop E s2 (tokenLoop E s1 urls paths).1 (tokenLoop E s1 urls paths).2.1 := by
  induction s1 with
  | nil => intro urls paths; simp [tokenLoop]
  | cons t rest ih =>
    intro urls paths
    have ht : t.Typ ≠ .ErrorToken := h t (by simp)
    have hrest : ∀ t ∈ rest, t.Typ ≠ .ErrorToken := fun x hx => h x (by simp [hx])
    simp only [List.cons_append]
    cases hty : t.Typ <;> simp only [tokenLoop, hty] <;> first
      | exact absurd hty ht
      | exact ih hrest _ _

/-! ### Facts on `url.Parse` -/

/-- The scheme of a parsed URL is the one `parse` found in the text before
the fragment. -/
theorem Parse_ok_scheme (E : Env) (rawURL : String) (u : URL) (h : url.Parse E rawURL = .ok u) :
    ∃ u0, url.parse E (strings.Cut rawURL '#').1 = .ok u0 ∧ u0.Scheme = u.Scheme := by
  unfold url.Parse at h
  cases hp : url.parse E (strings.Cut rawURL '#').1 with
  | error e => simp [hp] at h
  | ok u0 =>
    simp only [hp] at h
    split at h
    · cases h; exact ⟨_, rfl, rfl⟩
    · split at h
      · cases h
      · cases h; exact ⟨_, rfl, rfl⟩

/-- The scheme `parse` reports is the lowercased scheme of `getScheme`, except
for the text "*", which has none. -/
theorem parse_ok_scheme (E : Env) (raw : String) (u : URL) (h : url.parse E raw = .ok u) :
    (raw = "*" ∧ u.Scheme = "") ∨
      ∃ scheme rest, url.getScheme raw = .ok (scheme, rest) ∧ u.Scheme = strings.ToLower scheme := by
  unfold url.parse at h
  split at h
  · cases h
  · split at h
    · rename_i hstar
      cases h
      exact Or.inl ⟨hstar, rfl⟩
    · split at h
      · cases h
      · rename_i scheme rest hs
        split at h
        · cases h
        · cases h
          exact Or.inr ⟨scheme, rest, hs, rfl⟩

/-- The text "#" never parses to a URL with a scheme. -/
theorem Parse_hash_scheme (E : Env) (u : URL) (h : url.Parse E "#" = .ok u) : u.Scheme = "" := by
  obtain ⟨u0, hu0, hs⟩ := Parse_ok_scheme E "#" u h
  rw [← hs]
  have hcut : (strings.Cut "#" '#').1 = "" := by decide
  rw [hcut] at hu0
  rcases parse_ok_scheme E "" u0 hu0 with ⟨h1, _⟩ | ⟨scheme, rest, h1, h2⟩
  · exact absurd h1 (by decide)
  · have : url.getScheme "" = .ok ("", "") := rfl
    rw [this] at h1
    cases h1
    rw [h2]; rfl

theorem classify_hash (E : Env) : classify E "#" = ([], ["#"]) := by
  unfold classify
  have h1 : strings.HasPrefix "#" "http://" = false := by decide
  have h2 : strings.HasPrefix "#" "https://" = false := by decide
  simp only [h1, h2, Bool.false_eq_true, or_self, if_false]
  split
  · rename_i u hu
    have := Parse_hash_scheme E u hu
    simp [this]
  · rfl

/-! ### The claims on the extractor -/

/-- C1: for a start or self-closing tag whose trimmed `href` is not "#", the
loop body returns `urls` and `paths` extended by the entries of the `href`
value and then of the `src` value, and `extractURLsAndPathsFromResponse`
returns, for a body in which the tag stands between the tokens `pre` and
`post`, the buckets of `pre`, then these entries, then the buckets of `post`;
each of the two values that is non-empty and not "#" adds exactly one entry
to exactly one bucket, the one the classification rule names (the value
itself to `urls` after the literal prefix "http://" or "https://", else the
parsed URL's string form to `urls` when it parses with scheme http or https,
else the value itself to `paths`), and an empty value adds nothing. -/
theorem tag_entries_classified (E : Env) (token : html.Token) (rest : List html.Token)
    (urls paths : List String)
    (htag : token.Typ = .StartTagToken ∨ token.Typ = .SelfClosingTagToken)
    (hhref : hrefOf token ≠ "#") :
    ∃ uh ph us ps : List String,
      tagCase E token urls paths = (urls ++ uh ++ us, paths ++ ph ++ ps) ∧
      (∀ (pre post : List html.Token) (stop : html.ReadEnd),
        (∀ t ∈ pre, t.Typ ≠ .ErrorToken) →
        extractURLsAndPathsFromResponse E
            { Body := { tokens := pre ++ token :: post, stop := stop } } =
          ((extractURLsAndPathsFromResponse E { Body := { tokens := pre, stop := stop } }).1 ++
              uh ++ us ++
              (extractURLsAndPathsFromResponse E { Body := { tokens := post, stop := stop } }).1,
            (extractURLsAndPathsFromResponse E { Body := { tokens := pre, stop := stop } }).2.1 ++
              ph ++ ps ++
              (extractURLsAndPathsFromResponse E { Body := { tokens := post, stop := stop } }).2.1,
            none)) ∧
      tokenLoop E (token :: rest) urls paths =
        tokenLoop E rest (urls ++ uh ++ us) (paths ++ ph ++ ps) ∧
      (hrefOf token ≠ "" → (uh, ph) = classify E (hrefOf token) ∧ uh.length + ph.length = 1) ∧
      (hrefOf token = "" → uh = [] ∧ ph = []) ∧
      (srcOf token ≠ "" → srcOf token ≠ "#" →
        (us, ps) = classify E (srcOf token) ∧ us.length + ps.length = 1) ∧
      (srcOf token = "" → us = [] ∧ ps = []) ∧
      (∀ v : String,
        ((strings.HasPrefix v "http://" = true ∨ strings.HasPrefix v "https://" = true) →
          classify E v = ([v], [])) ∧
        (strings.HasPrefix v "http://" = false → strings.HasPrefix v "https://" = false →
          (∀ u, url.Parse E v = .ok u → (u.Scheme = "http" ∨ u.Scheme = "https") →
            classify E v = ([E.URLString u], [])) ∧
          (∀ u, url.Parse E v = .ok u → ¬ (u.Scheme = "http" ∨ u.Scheme = "https") →
            classify E v = ([], [v])) ∧
          (∀ e, url.Parse E v = .error e → classify E v = ([], [v])))) := by
  have hstep : ∀ (post : List html.Token) (us0 ps0 : List String),
      tokenLoop E (token :: post) us0 ps0 =
        tokenLoop E post (us0 ++ (hrefEntries E token).1 ++ (srcEntries E token).1)
          (ps0 ++ (hrefEntries E token).2 ++ (srcEntries E token).2) := by
    intro post us0 ps0
    rcases htag with h | h <;> simp only [tokenLoop, h, tagCase_eq]
  refine ⟨(hrefEntries E token).1, (hrefEntries E token).2, (srcEntries E token).1,
    (srcEntries E token).2, tagCase_eq E token urls paths, ?_, hstep rest urls paths,
    ?_, ?_, ?_, ?_, ?_⟩
  · intro pre post stop hpre
    simp only [extractURLsAndPathsFromResponse]
    rw [tokenLoop_append E pre (token :: post) hpre, hstep, tokenLoop_acc E post]
  · intro h
    have he : hrefEntries E token = classify E (hrefOf token) := by
      simp [hrefEntries, h, hhref]
    rw [he]
    exact ⟨rfl, classify_one E _⟩
  · intro h
    simp [hrefEntries, h]
  · intro h1 _
    have he : srcEntries E token = classify E (srcOf token) := by
      simp [srcEntries, h1, hhref]
    rw [he]
    exact ⟨rfl, classify_one E _⟩
  · intro h
    simp [srcEntries, h]
  · intro v
    refine ⟨fun h => by simp [classify, h], fun h1 h2 => ⟨?_, ?_, ?_⟩⟩
    · intro u hu hs
      simp [classify, h1, h2, hu, hs]
    · intro u hu hs
      simp [classify, h1, h2, hu, hs]
    · intro e he
      simp [classify, h1, h2, he]

/-- C9: a start or self-closing tag whose trimmed `href` is exactly "#" adds
nothing to either bucket, whatever its `src` value is. -/
theorem href_hash_silences_tag (E : Env) (token : html.Token) (rest : List html.Token)
    (urls paths : List String)
    (htag : token.Typ = .StartTagToken ∨ token.Typ = .SelfClosingTagToken)
    (hhref : hrefOf token = "#") :
    tagCase E token urls paths = (urls, paths) ∧
      tokenLoop E (token :: rest) urls paths = tokenLoop E rest urls paths := by
  have h : tagCase E token urls paths = (urls, paths) := by
    simp [tagCase_eq, hrefEntries, srcEntries, hhref]
  refine ⟨h, ?_⟩
  rcases htag with ht | ht <;> simp only [tokenLoop, ht, h]

/-- C2 (the code departs from it): the tag `<img src="#">`, which has no
`href`, puts the entry "#" into `paths`, in every environment. -/
theorem src_hash_alone_is_listed (E : Env) :
    extractURLsAndPathsFromResponse E { Body := { tokens := [imgSrcHash] } } =
      ([], ["#"], none) := by
  have hh : hrefOf imgSrcHash = "" := by decide
  have hs : srcOf imgSrcHash = "#" := by decide
  have ht : imgSrcHash.Typ = .StartTagToken := rfl
  simp only [extractURLsAndPathsFromResponse, tokenLoop, ht, tagCase_eq, hrefEntries,
    srcEntries, hh, hs]
  simp [classify_hash]

/-- C3: extraction is append-only and order-preserving: the buckets of a token
sequence `s1 ++ s2` (no `ErrorToken` inside `s1`) are the buckets of `s1`
followed by those of `s2`, duplicates kept; so the buckets of three tags
`a, b, c` are those of `a`, then of `b`, then of `c`. -/
theorem extraction_concat (E : Env) (s1 s2 : List html.Token) (a b c : html.Token)
    (stop stop1 stop2 : html.ReadEnd)
    (h : ∀ t ∈ s1, t.Typ ≠ .ErrorToken)
    (ha : a.Typ ≠ .ErrorToken) (hb : b.Typ ≠ .ErrorToken) :
    ((extractURLsAndPathsFromResponse E { Body := { tokens := s1 ++ s2, stop := stop } }).1 =
        (extractURLsAndPathsFromResponse E { Body := { tokens := s1, stop := stop1 } }).1 ++
        (extractURLsAndPathsFromResponse E { Body := { tokens := s2, stop := stop2 } }).1 ∧
      (extractURLsAndPathsFromResponse E { Body := { tokens := s1 ++ s2, stop := stop } }).2.1 =
        (extractURLsAndPathsFromResponse E { Body := { tokens := s1, stop := stop1 } }).2.1 ++
        (extractURLsAndPathsFromResponse E { Body := { tokens := s2, stop := stop2 } }).2.1) ∧
    ((extractURLsAndPathsFromResponse E { Body := { tokens := [a, b, c], stop := stop } }).1 =
        (extractURLsAndPathsFromResponse E { Body := { tokens := [a], stop := stop } }).1 ++
        (extractURLsAndPathsFromResponse E { Body := { tokens := [b], stop := stop } }).1 ++
        (extractURLsAndPathsFromResponse E { Body := { tokens := [c], stop := stop } }).1 ∧
      (extractURLsAndPathsFromResponse E { Body := { tokens := [a, b, c], stop := stop } }).2.1 =
        (extractURLsAndPathsFromResponse E { Body := { tokens := [a], stop := stop } }).2.1 ++
        (extractURLsAndPathsFromResponse E { Body := { tokens := [b], stop := stop } }).2.1 ++
        (extractURLsAndPathsFromResponse E { Body := { tokens := [c], stop := stop } }).2.1) := by
  have key : ∀ (x y : List html.Token), (∀ t ∈ x, t.Typ ≠ .ErrorToken) →
      (tokenLoop E (x ++ y) [] []).1 = (tokenLoop E x [] []).1 ++ (tokenLoop E y [] []).1 ∧
      (tokenLoop E (x ++ y) [] []).2.1 =
        (tokenLoop E x [] []).2.1 ++ (tokenLoop E y [] []).2.1 := by
    intro x y hx
    rw [tokenLoop_append E x y hx, tokenLoop_acc E y]
    exact ⟨rfl, rfl⟩
  refine ⟨key s1 s2 h, ?_⟩
  have h1 := key [a] [b, c] (by simpa using ha)
  have h2 := key [b] [c] (by simpa using hb)
  simp only [List.singleton_append] at h1 h2
  simp only [extractURLsAndPathsFromResponse]
  rw [h1.1, h1.2, h2.1, h2.2]
  simp [List.append_assoc]

/-- C6, counterexample: the tokenizer stops on the read error "unexpected
EOF" and the extractor returns the buckets with a nil error. -/
theorem read_error_not_reported :
    truncatedResponse.Body.stop = .ioError "unexpected EOF" ∧
      extractURLsAndPathsFromResponse Sample.env truncatedResponse = ([], ["/about"], none) ∧
      ¬ ((extractURLsAndPathsFromResponse Sample.env truncatedResponse).2.2 ≠ none ↔
          truncatedResponse.Body.stop ≠ .eof) := by
  have h : extractURLsAndPathsFromResponse Sample.env truncatedResponse =
      ([], ["/about"], none) := by decide
  refine ⟨rfl, h, ?_⟩
  rw [h]
  decide

/-- C6, amended: the extractor never returns an error; whatever made the
tokenizer stop (end of input, malformed HTML, a read error), it returns the
buckets collected so far, the same ones for every reason. -/
theorem extract_never_fails (E : Env) (resp : http.Response) :
    (extractURLsAndPathsFromResponse E resp).2.2 = none ∧
      ∀ stop : html.ReadEnd,
        extractURLsAndPathsFromResponse E
          { Body := { tokens := resp.Body.tokens, stop := stop } } =
        extractURLsAndPathsFromResponse E resp := by
  refine ⟨?_, fun _ => rfl⟩
  simp only [extractURLsAndPathsFromResponse]
  rw [tokenLoop_acc]

/-- Witness of `tag_entries_classified` at `linkTag`, alone in the body and
between `linkA` and `linkC`: the returned buckets. -/
theorem tag_entries_classified_witness :
    (linkTag.Typ = .StartTagToken ∨ linkTag.Typ = .SelfClosingTagToken) ∧
    hrefOf linkTag ≠ "#" ∧
    tagCase Sample.env linkTag ["u"] ["p"] =
      (["u", "http://cdn.example.com/x.js"], ["p", "/style.css"]) ∧
    extractURLsAndPathsFromResponse Sample.env
        { Body := { tokens := [linkTag], stop := .eof } } =
      (["http://cdn.example.com/x.js"], ["/style.css"], none) ∧
    extractURLsAndPathsFromResponse Sample.env
        { Body := { tokens := [linkA, linkTag, linkC], stop := .eof } } =
      (["http://cdn.example.com/x.js", "https://c.example/"], ["/a", "/style.css"], none) := by
  have hh : hrefOf linkTag = "/style.css" := by decide
  have hs : srcOf linkTag = "http://cdn.example.com/x.js" := by decide
  refine ⟨Or.inl rfl, by decide, ?_⟩
  obtain ⟨uh, ph, us, ps, h0, hx, _, h2, _, h4, _, _⟩ :=
    tag_entries_classified Sample.env linkTag [] ["u"] ["p"] (Or.inl rfl) (by decide)
  have e1 : (uh, ph) = ([], ["/style.css"]) := by
    rw [(h2 (by decide)).1, hh]; decide
  have e2 : (us, ps) = (["http://cdn.example.com/x.js"], []) := by
    rw [(h4 (by decide) (by decide)).1, hs]; decide
  simp only [Prod.mk.injEq] at e1 e2
  obtain ⟨rfl, rfl⟩ := e1
  obtain ⟨rfl, rfl⟩ := e2
  refine ⟨h0, ?_, ?_⟩
  · have := hx [] [] .eof (by simp)
    simp only [List.nil_append] at this
    rw [this]
    decide
  · have := hx [linkA] [linkC] .eof (by decide)
    simp only [List.singleton_append] at this
    rw [this]
    decide

/-- Witness of `href_hash_silences_tag` at `hashTag`. -/
theorem href_hash_silences_tag_witness :
    (hashTag.Typ = .StartTagToken ∨ hashTag.Typ = .SelfClosingTagToken) ∧
    hrefOf hashTag = "#" ∧ srcOf hashTag = "/logo.png" ∧
    tagCase Sample.env hashTag ["u"] ["p"] = (["u"], ["p"]) :=
  ⟨Or.inl rfl, by decide, by decide,
    (href_hash_silences_tag Sample.env hashTag [] ["u"] ["p"] (Or.inl rfl) (by decide)).1⟩

/-- Witness of `extraction_concat` at the links `linkA`, `linkB`, `linkC`. -/
theorem extraction_concat_witness :
    (∀ t ∈ [linkA, linkB], t.Typ ≠ .ErrorToken) ∧
    (extractURLsAndPathsFromResponse Sample.env
        { Body := { tokens := [linkA, linkB] ++ [linkC, linkA], stop := .eof } }).2.1 =
      (extractURLsAndPathsFromResponse Sample.env
        { Body := { tokens := [linkA, linkB], stop := .eof } }).2.1 ++
      (extractURLsAndPathsFromResponse Sample.env
        { Body := { tokens := [linkC, linkA], stop := .eof } }).2.1 ∧
    (extractURLsAndPathsFromResponse Sample.env
        { Body := { tokens := [linkA, linkB, linkA], stop := .eof } }).2.1 = ["/a", "/b", "/a"] := by
  have hne : ∀ t ∈ [linkA, linkB], t.Typ ≠ .ErrorToken := by decide
  have h := extraction_concat Sample.env [linkA, linkB] [linkC, linkA] linkA linkB linkA
    .eof .eof .eof hne (by decide) (by decide)
  refine ⟨hne, h.1.2, ?_⟩
  rw [h.2.2]
  decide

/-! ## Theorems on `validateUrl` -/

theorem getSchemeLoop_https (raw : String) (rest : List Char) :
    url.getSchemeLoop raw [] ('h' :: 't' :: 't' :: 'p' :: 's' :: ':' :: rest) =
      .ok ("https", String.mk rest) := rfl

theorem getScheme_https (x : String) :
    url.getScheme ("https://" ++ x) = .ok ("https", "//" ++ x) := by
  unfold url.getScheme
  have hd : ("https://" ++ x).data =
      'h' :: 't' :: 't' :: 'p' :: 's' :: ':' :: ('/' :: '/' :: x.data) := by
    simp [String.data_append]
  rw [hd, getSchemeLoop_https]
  have hx : "//" ++ x = String.mk ('/' :: '/' :: x.data) := by
    apply String.ext; simp [String.data_append]
  rw [hx]

theorem cutChars_https (l : List Char) :
    (strings.cutChars '#' ('h' :: 't' :: 't' :: 'p' :: 's' :: ':' :: '/' :: '/' :: l)).1 =
      'h' :: 't' :: 't' :: 'p' :: 's' :: ':' :: '/' :: '/' :: (strings.cutChars '#' l).1 := rfl

theorem Cut_https (x : String) :
    (strings.Cut ("https://" ++ x) '#').1 = "https://" ++ (strings.Cut x '#').1 := by
  apply String.ext
  have hd : ("https://" ++ x).data =
      'h' :: 't' :: 't' :: 'p' :: 's' :: ':' :: '/' :: '/' :: x.data := by
    simp [String.data_append]
  simp only [strings.Cut, hd, cutChars_https, String.data_append]
  rfl

/-- A text that starts with "https://" parses, if it parses, to a URL with
scheme "https". -/
theorem Parse_https_scheme (E : Env) (x : String) (u : URL)
    (h : url.Parse E ("https://" ++ x) = .ok u) : u.Scheme = "https" := by
  obtain ⟨u0, hu0, hs⟩ := Parse_ok_scheme E _ u h
  rw [← hs]
  rw [Cut_https] at hu0
  rcases parse_ok_scheme E _ u0 hu0 with ⟨h1, _⟩ | ⟨scheme, rest, h1, h2⟩
  · have := congrArg String.length h1
    simp [String.length_append] at this
    have h8 : "https://".length = 8 := by decide
    have h1' : "*".length = 1 := by decide
    omega
  · rw [getScheme_https] at h1
    cases h1
    rw [h2]; decide

theorem HasPrefix_append (p r : String) : strings.HasPrefix (p ++ r) p = true := by
  unfold strings.HasPrefix
  simp [String.data_append]

/-- The shape of what `validateUrl` returns when it succeeds. -/
theorem validateUrl_ok (E : Env) (inputURL out : String)
    (h : (validateUrl E inputURL).2 = .ok out) :
    ∃ (u : URL) (rest : String), (u.Scheme = "http" ∨ u.Scheme = "https") ∧
      out = u.Scheme ++ "://" ++ rest ∧
      (∀ u0, url.Parse E inputURL = .ok u0 → u0.Scheme = "" → u.Scheme = "https") := by
  unfold validateUrl at h
  cases hP : url.Parse E inputURL with
  | error e => simp [hP] at h
  | ok u0 =>
    simp only [hP] at h
    by_cases hs : u0.Scheme = ""
    · simp only [hs, if_true] at h
      cases hQ : url.Parse E ("https://" ++ inputURL) with
      | error e => simp [hQ] at h
      | ok u1 =>
        have h1 : u1.Scheme = "https" := Parse_https_scheme E inputURL u1 hQ
        simp only [hQ] at h
        generalize (match E.SplitHostPort u1.Host with
          | .ok hp => hp
          | .error _ => (u1.Host, "")) = hp at h
        refine ⟨u1, ?_⟩
        split at h
        · rename_i hbad; exact absurd h1 hbad.2
        · split at h
          · cases h
          · split at h
            · simp only [Outcome.ok.injEq] at h
              exact ⟨hp.1 ++ ":" ++ hp.2 ++ E.RequestURI u1, Or.inr h1,
                by rw [← h]; simp only [String.append_assoc], fun _ _ _ => h1⟩
            · simp only [Outcome.ok.injEq] at h
              exact ⟨hp.1 ++ E.RequestURI u1, Or.inr h1,
                by rw [← h]; simp only [String.append_assoc], fun _ _ _ => h1⟩
    · simp only [hs, if_false] at h
      generalize (match E.SplitHostPort u0.Host with
        | .ok hp => hp
        | .error _ => (u0.Host, "")) = hp at h
      refine ⟨u0, ?_⟩
      split at h
      · cases h
      · rename_i hgood
        have hsch : u0.Scheme = "http" ∨ u0.Scheme = "https" := by
          by_contra hc
          simp only [not_or] at hc
          exact hgood ⟨hc.1, hc.2⟩
        split at h
        · cases h
        · split at h
          · simp only [Outcome.ok.injEq] at h
            exact ⟨hp.1 ++ ":" ++ hp.2 ++ E.RequestURI u0, hsch,
              by rw [← h]; simp only [String.append_assoc],
              fun v hv hv0 => by cases hv; exact absurd hv0 hs⟩
          · simp only [Outcome.ok.injEq] at h
            exact ⟨hp.1 ++ E.RequestURI u0, hsch,
              by rw [← h]; simp only [String.append_assoc],
              fun v hv hv0 => by cases hv; exact absurd hv0 hs⟩

/-- C5: whenever `validateUrl` succeeds the returned URL begins with "http://"
or "https://", and with "https://" when the input parsed with an empty scheme;
an input that parses with a scheme other than http and https is rejected with
the error "Invalid URL scheme". -/
theorem validateUrl_scheme (E : Env) (inputURL : String) :
    (∀ out : String, (validateUrl E inputURL).2 = .ok out →
      (strings.HasPrefix out "http://" = true ∨ strings.HasPrefix out "https://" = true) ∧
      (∀ u0, url.Parse E inputURL = .ok u0 → u0.Scheme = "" →
        strings.HasPrefix out "https://" = true)) ∧
    (∀ u0, url.Parse E inputURL = .ok u0 → u0.Scheme ≠ "" → u0.Scheme ≠ "http" →
      u0.Scheme ≠ "https" → validateUrl E inputURL = ([], .error "Invalid URL scheme")) := by
  refine ⟨fun out h => ?_, fun u0 hP h0 h1 h2 => ?_⟩
  · obtain ⟨u, rest, hs, hout, hempty⟩ := validateUrl_ok E inputURL out h
    have hpre : ∀ sch : String, u.Scheme = sch →
        strings.HasPrefix out (sch ++ "://") = true := by
      intro sch hsch
      rw [hout, hsch]
      exact HasPrefix_append _ _
    refine ⟨?_, fun u0 hP h0 => hpre "https" (hempty u0 hP h0)⟩
    rcases hs with hs | hs
    · exact Or.inl (hpre "http" hs)
    · exact Or.inr (hpre "https" hs)
  · unfold validateUrl
    simp [hP, h0, h1, h2]

/-- Witness of `validateUrl_scheme`: "example.com" is completed to
"https://example.com/", "ftp://example.com" is rejected. -/
theorem validateUrl_scheme_witness :
    (validateUrl Sample.env "example.com").2 = .ok "https://example.com/" ∧
    strings.HasPrefix "https://example.com/" "https://" = true ∧
    validateUrl Sample.env "ftp://example.com" = ([], .error "Invalid URL scheme") := by
  have hok : (validateUrl Sample.env "example.com").2 = .ok "https://example.com/" := by decide
  have hp : ∃ u0, url.Parse Sample.env "example.com" = .ok u0 ∧ u0.Scheme = "" :=
    ⟨_, rfl, rfl⟩
  have hf : ∃ u0, url.Parse Sample.env "ftp://example.com" = .ok u0 ∧ u0.Scheme = "ftp" :=
    ⟨_, rfl, rfl⟩
  obtain ⟨u0, h0, h0s⟩ := hp
  obtain ⟨u1, h1, h1s⟩ := hf
  exact ⟨hok, ((validateUrl_scheme Sample.env "example.com").1 _ hok).2 u0 h0 h0s,
    (validateUrl_scheme Sample.env "ftp://example.com").2 u1 h1
      (by rw [h1s]; decide) (by rw [h1s]; decide) (by rw [h1s]; decide)⟩

/-- When `validateUrl` panics: exactly when the input parses without a scheme
and the second parse, of "https://" followed by the input, fails. -/
theorem validateUrl_panicked_iff (E : Env) (inputURL : String) :
    (∃ m, (validateUrl E inputURL).2 = .panicked m) ↔
      ∃ u0, url.Parse E inputURL = .ok u0 ∧ u0.Scheme = "" ∧
        ∃ e, url.Parse E ("https://" ++ inputURL) = .error e := by
  unfold validateUrl
  cases hP : url.Parse E inputURL with
  | error e => simp
  | ok u0 =>
    by_cases hs : u0.Scheme = ""
    · cases hQ : url.Parse E ("https://" ++ inputURL) with
      | error e =>
        simp only [hs, if_true, hQ]
        exact ⟨fun _ => ⟨u0, rfl, hs, e, rfl⟩, fun _ => ⟨_, rfl⟩⟩
      | ok u1 =>
        simp only [hs, if_true, hQ]
        constructor
        · rintro ⟨m, hm⟩
          repeat' split at hm
          all_goals cases hm
        · rintro ⟨_, _, _, e, he⟩
          cases he
    · simp only [hs, if_false]
      constructor
      · rintro ⟨m, hm⟩
        repeat' split at hm
        all_goals cases hm
      · rintro ⟨v, hv, hv0, _⟩
        cases hv
        exact absurd hv0 hs

/-- C8 (the code departs from it): `validateUrl` panics exactly when the input
parses without a scheme and "https://" followed by the input does not parse;
the target "a b" is such an input, and `main` ends in the panic. -/
theorem validateUrl_panics_on_failed_reparse :
    (∀ (E : Env) (inputURL : String),
      (∃ m, (validateUrl E inputURL).2 = .panicked m) ↔
        ∃ u0, url.Parse E inputURL = .ok u0 ∧ u0.Scheme = "" ∧
          ∃ e, url.Parse E ("https://" ++ inputURL) = .error e) ∧
    (∃ u0, url.Parse Sample.env "a b" = .ok u0 ∧ u0.Scheme = "" ∧ u0.Path = "a b") ∧
    url.Parse Sample.env "https://a b" =
      .error "parse \"https://a b\": invalid character \" \" in host name" ∧
    validateUrl Sample.env "a b" =
      ([], .panicked "invalid memory address or nil pointer dereference") ∧
    main Sample.env { urlFlag := "a b", silentMode := true } =
      { events := [], panicked := true } :=
  ⟨validateUrl_panicked_iff, ⟨_, rfl, rfl, rfl⟩, rfl, by decide, by decide⟩

/-! ## Theorems on `main` -/

theorem validateUrl_events (E : Env) (inputURL : String) :
    ∀ e ∈ (validateUrl E inputURL).1, ∃ host, e = Event.lookupHost host := by
  intro e he
  unfold validateUrl at he
  cases hP : url.Parse E inputURL with
  | error err => simp [hP] at he
  | ok u0 =>
    simp only [hP] at he
    generalize (if u0.Scheme = "" then
        (match url.Parse E (if u0.Scheme = "" then "https://" ++ inputURL else inputURL) with
         | .ok u1 => some u1
         | .error _ => none)
      else some u0) = reparsed at he
    cases reparsed with
    | none => simp at he
    | some u =>
      simp only at he
      generalize (match E.SplitHostPort u.Host with
        | .ok hp => hp
        | .error _ => (u.Host, "")) = hp at he
      split at he
      · simp at he
      · split at he
        · simp only [List.mem_singleton] at he
          exact ⟨_, he⟩
        · split at he <;> simp only [List.mem_singleton] at he <;> exact ⟨_, he⟩

theorem printBanner_stdout : ∀ e ∈ printBanner, ∃ text, e = Event.stdout text := by
  intro e he
  simp only [printBanner, println, List.mem_cons, List.mem_singleton, List.not_mem_nil,
    or_false] at he
  rcases he with h | h | h | h | h | h | h | h <;> exact ⟨_, h⟩

/-- C7, counterexample: with `-t example.com -uO -pO -s` the program looks
"example.com" up in DNS before it prints the conflict message; without `-s`
the banner is printed as well, and with a target that fails validation the
validation error is printed in place of the conflict message. -/
theorem conflict_run_looks_up_host :
    main Sample.env
        { urlFlag := "example.com", urlOnly := true, pathOnly := true, silentMode := true } =
      { events := [.lookupHost "example.com",
                   .stdout "You can't use both -uO and -pO flags together\n"],
        panicked := false } ∧
    main Sample.env { urlFlag := "example.com", urlOnly := true, pathOnly := true } =
      { events := printBanner ++ [.lookupHost "example.com",
                   .stdout "You can't use both -uO and -pO flags together\n"],
        panicked := false } ∧
    main Sample.env
        { urlFlag := "ftp://example.com", urlOnly := true, pathOnly := true, silentMode := true } =
      { events := [.stdout "Error: Invalid URL scheme\n\n"], panicked := false } := by
  refine ⟨by decide, by decide, by decide⟩

theorem printed_append (xs ys : List Event) : printed (xs ++ ys) = printed xs ++ printed ys := by
  induction xs with
  | nil => rfl
  | cons e es ih => cases e <;> simp [printed, ih]

theorem printed_lookups (es : List Event) (h : ∀ e ∈ es, ∃ host, e = Event.lookupHost host) :
    printed es = [] := by
  induction es with
  | nil => rfl
  | cons e es ih =>
    obtain ⟨host, rfl⟩ := h e (by simp)
    simpa [printed] using ih (fun x hx => h x (by simp [hx]))

/-- How `main` ends when both `-uO` and `-pO` are set. -/
theorem main_conflict (E : Env) (f : Flags)
    (hu : f.urlOnly = true) (hp : f.pathOnly = true) (hh : f.helpFlag = false)
    (ht : f.urlFlag ≠ "") :
    main E f =
      match validateUrl E f.urlFlag with
      | (lookups, .panicked _) =>
        { events := (if f.silentMode then [] else printBanner) ++ lookups, panicked := true }
      | (lookups, .error err) =>
        { events := (if f.silentMode then [] else printBanner) ++ lookups ++
            [.stdout ("Error: " ++ err ++ "\n\n")] }
      | (lookups, .ok _) =>
        { events := (if f.silentMode then [] else printBanner) ++ lookups ++
            [.stdout "You can't use both -uO and -pO flags together\n"] } := by
  unfold main
  simp only [hh, ht, hu, hp, Bool.and_self, if_true, if_false, Bool.false_eq_true, println]
  cases f.silentMode <;> rfl

/-- C7, amended: in a run with both `-uO` and `-pO` (target given, no `-h`)
no HTTP request is sent; when the target validates, the program prints the
banner (unless `-s` is set) and then only the conflict message, and returns;
when the validation returns an error, it prints that error in place of the
conflict message. -/
theorem conflict_run_sends_no_request (E : Env) (f : Flags)
    (hu : f.urlOnly = true) (hp : f.pathOnly = true) (hh : f.helpFlag = false)
    (ht : f.urlFlag ≠ "") :
    (∀ client req, Event.httpDo client req ∉ (main E f).events) ∧
    (∀ validUrl, (validateUrl E f.urlFlag).2 = .ok validUrl →
      printed (main E f).events =
        printed (if f.silentMode then [] else printBanner) ++
          ["You can't use both -uO and -pO flags together\n"] ∧
      (main E f).panicked = false) ∧
    (∀ err, (validateUrl E f.urlFlag).2 = .error err →
      printed (main E f).events =
        printed (if f.silentMode then [] else printBanner) ++ ["Error: " ++ err ++ "\n\n"] ∧
      (main E f).panicked = false) := by
  have hev := validateUrl_events E f.urlFlag
  have hbanner : ∀ e ∈ (if f.silentMode then [] else printBanner),
      ∃ text, e = Event.stdout text := by
    intro e he
    split at he
    · simp at he
    · exact printBanner_stdout e he
  have hmain := main_conflict E f hu hp hh ht
  refine ⟨?_, ?_, ?_⟩
  · intro client req hmem
    rw [hmain] at hmem
    cases hv : validateUrl E f.urlFlag with
    | mk lookups res =>
      rw [hv] at hev
      have hl : Event.httpDo client req ∉ lookups := by
        intro hin
        obtain ⟨host, hhost⟩ := hev _ hin
        cases hhost
      have hb : Event.httpDo client req ∉ (if f.silentMode then [] else printBanner) := by
        intro hin
        obtain ⟨text, htext⟩ := hbanner _ hin
        cases htext
      cases res <;> simp only [hv, List.mem_append, List.mem_singleton] at hmem
      · rcases hmem with (h | h) | h
        · exact hb h
        · exact hl h
        · cases h
      · rcases hmem with (h | h) | h
        · exact hb h
        · exact hl h
        · cases h
      · rcases hmem with h | h
        · exact hb h
        · exact hl h
  · intro validUrl hok
    rw [hmain]
    cases hv : validateUrl E f.urlFlag with
    | mk lookups res =>
      rw [hv] at hok hev
      simp only at hok
      subst hok
      simp [printed_append, printed_lookups lookups hev, printed]
  · intro err herr
    rw [hmain]
    cases hv : validateUrl E f.urlFlag with
    | mk lookups res =>
      rw [hv] at herr hev
      simp only at herr
      subst herr
      simp [printed_append, printed_lookups lookups hev, printed]

/-- Witness of `conflict_run_sends_no_request` at `-t example.com -uO -pO -s`. -/
theorem conflict_run_sends_no_request_witness :
    (validateUrl Sample.env "example.com").2 = .ok "https://example.com/" ∧
    printed (main Sample.env
        { urlFlag := "example.com", urlOnly := true, pathOnly := true, silentMode := true }).events =
      printed (if true then [] else printBanner) ++
        ["You can't use both -uO and -pO flags together\n"] := by
  have hok : (validateUrl Sample.env "example.com").2 = .ok "https://example.com/" := by decide
  exact ⟨hok,
    ((conflict_run_sends_no_request Sample.env
      { urlFlag := "example.com", urlOnly := true, pathOnly := true, silentMode := true }
      rfl rfl rfl (by decide)).2.1 _ hok).1⟩

end Gourlex
